import Mathlib

/-!
Verification development for the Doppler MCP server's schema-to-tool
compiler (`OpenAPIParser`) and scope-guarded invocation engine
(`ToolGenerator.executeTool` / `DopplerClient.makeRequest`).

The TypeScript sources are shallowly embedded: JSON values become the
inductive `Json`, OpenAPI schema nodes become `SchemaObject`, and the
zod validator produced by `convertSchemaToZod` becomes the executable
function `validate`.  Recursion over schemas is made structural with an
explicit fuel parameter (the source recursion always terminates on
finite schemas; every theorem either quantifies over the fuel or
supplies enough of it).
-/

set_option autoImplicit false

namespace Doppler

/-- A JSON value, as passed to the compiled zod validators and to the
request builder.  Numbers are modelled as rationals (JS numbers are
floats; no claim depends on float-specific behaviour). -/
inductive Json where
  | null
  | bool (b : Bool)
  | num (q : Rat)
  | str (s : String)
  | arr (elems : List Json)
  | obj (fields : List (String × Json))

/-- JS strict equality (`===`) between a caller-supplied value and a
schema/scope value.  On primitives it is value equality; on objects and
arrays `===` is reference equality, and a freshly parsed caller value is
never reference-identical to a literal from the schema or configuration,
so the comparison is `false` there. -/
def jsStrictEq : Json → Json → Bool
  | .null, .null => true
  | .bool a, .bool b => a == b
  | .num a, .num b => a == b
  | .str a, .str b => a == b
  | _, _ => false

/-- `SchemaObject` from `src/types.ts` (fields `example` and
`description` are never consulted by the parser and are omitted). -/
inductive SchemaObject where
  | mk (type : Option String)
       (properties : Option (List (String × SchemaObject)))
       (items : Option SchemaObject)
       (required : Option (List String))
       (enum : Option (List Json))
       (format : Option String)
       (minimum : Option Rat)
       (maximum : Option Rat)
       (pattern : Option String)

def SchemaObject.type : SchemaObject → Option String
  | .mk t _ _ _ _ _ _ _ _ => t

def SchemaObject.properties : SchemaObject → Option (List (String × SchemaObject))
  | .mk _ p _ _ _ _ _ _ _ => p

def SchemaObject.items : SchemaObject → Option SchemaObject
  | .mk _ _ i _ _ _ _ _ _ => i

def SchemaObject.required : SchemaObject → Option (List String)
  | .mk _ _ _ r _ _ _ _ _ => r

def SchemaObject.enum : SchemaObject → Option (List Json)
  | .mk _ _ _ _ e _ _ _ _ => e

def SchemaObject.format : SchemaObject → Option String
  | .mk _ _ _ _ _ f _ _ _ => f

def SchemaObject.minimum : SchemaObject → Option Rat
  | .mk _ _ _ _ _ _ mn _ _ => mn

def SchemaObject.maximum : SchemaObject → Option Rat
  | .mk _ _ _ _ _ _ _ mx _ => mx

def SchemaObject.pattern : SchemaObject → Option String
  | .mk _ _ _ _ _ _ _ _ p => p

/-- Assoc-list lookup mirroring a JS property read `kvs[k]`
(`none` plays the role of `undefined`). -/
def lookupJ (kvs : List (String × Json)) (k : String) : Option Json :=
  (kvs.find? (fun kv => kv.1 = k)).map (·.2)

/-- JS truthiness of a (defined) value. -/
def truthy : Json → Bool
  | .null => false
  | .bool b => b
  | .num q => q ≠ 0
  | .str s => s ≠ ""
  | .arr _ => true
  | .obj _ => true

/-- Truthiness of a possibly-`undefined` value. -/
def truthyOpt : Option Json → Bool
  | some v => truthy v
  | none => false

/-- `val.replace(/^"|"$/g, "")` from `convertSchemaToZod`: strips one
leading and one trailing quote character. -/
def stripQuoteEdges (s : String) : String :=
  let l := s.data
  let l1 := match l with
    | '"' :: r => r
    | _ => l
  let l2 := if l1.getLast? = some '"' then l1.dropLast else l1
  String.mk l2

def isStrJson : Json → Bool
  | .str _ => true
  | _ => false

/-- The cleaned enum list built in the all-strings branch. -/
def cleanedEnum (lits : List Json) : List String :=
  lits.filterMap (fun j => match j with
    | .str s => some (stripQuoteEdges s)
    | _ => none)

/-- The validator compiled for `schema.enum` (the first branch of
`convertSchemaToZod`): `z.enum` of the quote-stripped literals when all
literals are strings, otherwise `z.never` / `z.literal` / a union of
literals. -/
def enumValidate (lits : List Json) (v : Json) : Option Json :=
  if lits.all isStrJson then
    match v with
    | .str s => if (cleanedEnum lits).contains s then some v else none
    | _ => none
  else
    match lits with
    | [] => none
    | [l] => if jsStrictEq v l then some v else none
    | _ => if lits.any (fun l => jsStrictEq v l) then some v else none

/-- Stand-in for the zod library's builtin email regular expression.
The format refinements delegate to the external zod/JS regex engine;
no claim in this development exercises them. -/
def emailAccepts (s : String) : Bool := s.data.contains '@'

/-- Stand-in for zod's `.url()` check (external library behaviour;
unexercised by every claim). -/
def urlAccepts (s : String) : Bool := s.data.contains ':'

/-- Stand-in for `new RegExp(schema.pattern).test` (the JS regex engine
is an external collaborator; unexercised by every claim). -/
def regexAccepts (_pattern : String) (_s : String) : Bool := true

/-- Stand-in for whether `new RegExp(pattern)` constructs without
throwing.  The JS regex grammar is external; all that is relied on is
that construction CAN fail and that an unmatched parenthesis such as
`"("` fails — true of the real engine, where it raises a
`SyntaxError`.  The coarse executable check used here is parenthesis
balance. -/
def regexValid (pattern : String) : Bool :=
  (pattern.data.foldl
    (fun acc c =>
      match acc with
      | none => none
      | some d =>
        if c = '(' then some (d + 1)
        else if c = ')' then (if d = 0 then none else some (d - 1))
        else some d)
    (some 0)) = some 0

/-- Format/pattern refinement chain of the `string` branch:
`email` else-if `uri` else-if `pattern`. -/
def strFormatOk (format : Option String) (pattern : Option String) (s : String) : Bool :=
  match format with
  | some "email" => emailAccepts s
  | some "uri" => urlAccepts s
  | _ =>
    match pattern with
    | some p => regexAccepts p s
    | none => true

/-- `minimum`/`maximum` applied as length bounds on strings. -/
def strLenOk (mn mx : Option Rat) (s : String) : Bool :=
  (match mn with
   | some m => decide ((s.length : Rat) ≥ m)
   | none => true) &&
  (match mx with
   | some m => decide ((s.length : Rat) ≤ m)
   | none => true)

/-- `minimum`/`maximum` applied as value bounds on numbers. -/
def ratBoundsOk (mn mx : Option Rat) (q : Rat) : Bool :=
  (match mn with
   | some m => decide (q ≥ m)
   | none => true) &&
  (match mx with
   | some m => decide (q ≤ m)
   | none => true)

/-- `z.record(z.any())`: accepts exactly objects, unchanged. -/
def recordAnyAccept (v : Json) : Option Json :=
  match v with
  | .obj _ => some v
  | _ => none

/-- Declared-property part of `z.object(fields).passthrough().parse`:
a field list of (name, schema, required) validated against the input
object; required missing keys fail, optional missing keys are skipped,
present keys are validated by `f` (the recursive validator). -/
def validateFields (f : SchemaObject → Json → Option Json) :
    List (String × SchemaObject × Bool) → List (String × Json) →
    Option (List (String × Json))
  | [], _ => some []
  | (k, sch, req) :: rest, kvs =>
    match lookupJ kvs k with
    | none => if req then none else validateFields f rest kvs
    | some v =>
      match f sch v with
      | none => none
      | some v' => (validateFields f rest kvs).map (fun fs => (k, v') :: fs)

/-- One layer of `OpenAPIParser.convertSchemaToZod` composed with
zod's `parse`, with `rec` standing for the validator compiled for the
nested schemas. -/
def validateBody (rec : SchemaObject → Json → Option Json) (s : SchemaObject) (v : Json) :
    Option Json :=
  match s.enum with
  | some lits => enumValidate lits v
  | none =>
    match s.type with
    | none => some v
    | some t =>
      if t = "string" then
        if s.format = some "json" then recordAnyAccept v
        else
          match v with
          | .str str =>
            if strFormatOk s.format s.pattern str && strLenOk s.minimum s.maximum str
            then some v else none
          | _ => none
      else if t = "number" || t = "integer" then
        match v with
        | .num q =>
          if (t = "integer" → q.den = 1) ∧ ratBoundsOk s.minimum s.maximum q = true
          then some v else none
        | _ => none
      else if t = "boolean" then
        match v with
        | .bool _ => some v
        | _ => none
      else if t = "array" then
        match s.items with
        | some it =>
          match v with
          | .arr xs => (xs.mapM (fun x => rec it x)).map Json.arr
          | _ => none
        | none =>
          match v with
          | .arr _ => some v
          | _ => none
      else if t = "object" then
        match s.properties with
        | some ps =>
          match v with
          | .obj kvs =>
            (validateFields rec
                (ps.map (fun p => (p.1, p.2, (s.required.getD []).contains p.1))) kvs).map
              (fun fs => Json.obj
                (fs ++ kvs.filter (fun kv => !(ps.map (·.1)).contains kv.1)))
          | _ => none
        | none => recordAnyAccept v
      else some v

/-- `OpenAPIParser.convertSchemaToZod` composed with zod's `parse`:
`validate fuel schema v` is `some v'` exactly when the compiled
validator accepts `v` with normalized value `v'`.  `fuel` bounds the
recursion depth (the source recursion is finite). -/
def validate : Nat → SchemaObject → Json → Option Json
  | 0, _, _ => none
  | fuel + 1, s, v => validateBody (fun sh vv => validate fuel sh vv) s v

/-! ### Tool naming (`generateToolName` and its helpers) -/

/-- The global dash-to-underscore replacement. -/
def dashToUS (l : List Char) : List Char :=
  l.map (fun c => if c = '-' then '_' else c)

/-- One scanning step of `.replace(/\{[^}]+\}/g, "")`: at a `{` with a
nonempty run of non-`}` characters followed by `}`, the whole template
is dropped and scanning resumes after it; otherwise the scanner
advances one character.  The fuel (initially the string length) bounds
the number of scanning steps. -/
def removeBracesAux : Nat → List Char → List Char
  | 0, l => l
  | _ + 1, [] => []
  | fuel + 1, c :: rest =>
    if c = '{' then
      let inner := rest.takeWhile (fun d => d ≠ '}')
      match rest.drop inner.length with
      | '}' :: tail =>
        if inner.isEmpty then c :: removeBracesAux fuel rest
        else removeBracesAux fuel tail
      | _ => c :: removeBracesAux fuel rest
    else c :: removeBracesAux fuel rest

def removeBraces (l : List Char) : List Char :=
  removeBracesAux l.length l

/-- `.replace(/_+/g, "_")`: collapse each run of underscores to one. -/
def collapseUS : List Char → List Char
  | [] => []
  | [c] => [c]
  | c1 :: c2 :: rest =>
    if c1 = '_' && c2 = '_' then collapseUS (c2 :: rest)
    else c1 :: collapseUS (c2 :: rest)

/-- Proof-support predicate: the list contains no two adjacent
underscores (the normal form established by the underscore-collapsing
replacement). -/
def noDoubleUS : List Char → Bool
  | [] => true
  | [_] => true
  | c1 :: c2 :: rest => !(c1 = '_' && c2 = '_') && noDoubleUS (c2 :: rest)

/-- `.replace(/_$/, "")` (no `g` flag): strip one trailing underscore. -/
def stripTrailingUS (l : List Char) : List Char :=
  if l.getLast? = some '_' then l.dropLast else l

/-- Leading half of `.replace(/^_|_$/g, "")`. -/
def stripLeadingOneUS : List Char → List Char
  | '_' :: rest => rest
  | l => l

/-- `.replace(/^_|_$/g, "")`: one leading and one trailing underscore. -/
def stripEdgeUS (l : List Char) : List Char :=
  stripTrailingUS (stripLeadingOneUS l)

/-- The shared 64-character MCP truncation: `substring(0, 64)` followed
by `.replace(/_$/, "")`. -/
def truncate64 (l : List Char) : List Char :=
  if l.length > 64 then stripTrailingUS (l.take 64) else l

/-- `OpenAPIParser.sanitizeOperationId`. -/
def sanitizeChars (opId : List Char) : List Char :=
  truncate64 (stripTrailingUS (collapseUS (removeBraces (dashToUS opId))))

def sanitizeOperationId (opId : String) : String :=
  String.mk (sanitizeChars opId.data)

/-- `/v3/i.test(opId)`: a `v` or `V` immediately followed by `3`. -/
def containsV3 : List Char → Bool
  | c1 :: c2 :: rest => ((c1 = 'v' || c1 = 'V') && c2 = '3') || containsV3 (c2 :: rest)
  | _ => false

/-- `/\{[^}]+\}/.test(opId)`. -/
def hasBraceParam : List Char → Bool
  | [] => false
  | c :: rest =>
    (c = '{' &&
      (match rest.drop (rest.takeWhile (fun d => d ≠ '}')).length with
       | '}' :: _ => !(rest.takeWhile (fun d => d ≠ '}')).isEmpty
       | _ => false)) ||
    hasBraceParam rest

/-- `/^(get|post|put|patch|delete)_/i.test(opId)`. -/
def startsWithMethodUS (l : List Char) : Bool :=
  match l.map Char.toLower with
  | 'g' :: 'e' :: 't' :: '_' :: _ => true
  | 'p' :: 'o' :: 's' :: 't' :: '_' :: _ => true
  | 'p' :: 'u' :: 't' :: '_' :: _ => true
  | 'p' :: 'a' :: 't' :: 'c' :: 'h' :: '_' :: _ => true
  | 'd' :: 'e' :: 'l' :: 'e' :: 't' :: 'e' :: '_' :: _ => true
  | _ => false

/-- `OpenAPIParser.isCleanOperationId`. -/
def isCleanOperationId (opId : String) : Bool :=
  !containsV3 opId.data && !hasBraceParam opId.data && !startsWithMethodUS opId.data

/-- `path.replace(/^\/v3\//, "")`. -/
def stripV3 : List Char → List Char
  | '/' :: 'v' :: '3' :: '/' :: rest => rest
  | l => l

/-- `split("/")`. -/
def splitSlash : List Char → List (List Char)
  | [] => [[]]
  | '/' :: rest => [] :: splitSlash rest
  | c :: rest =>
    match splitSlash rest with
    | [] => [[c]]
    | seg :: segs => (c :: seg) :: segs

/-- Steps 1–3 of `generateFromPath`: strip the `/v3/` prefix, split
into nonempty segments, drop `{param}` segments, snake-case the rest. -/
def pathParts (path : List Char) : List (List Char) :=
  ((splitSlash (stripV3 path)).filter (fun s => !s.isEmpty)).filterMap
    (fun seg => if seg.head? = some '{' then none else some (dashToUS seg))

def actionWords : List (List Char) :=
  ["clone", "lock", "unlock", "rollback", "download", "rename",
   "close", "apply", "review", "status", "enable", "disable"].map String.data

/-- Steps 4–5 of `generateFromPath`: the action suffix derived from the
HTTP method, the path shape, and a trailing action word. -/
def gfpAction (method path : String) : List Char :=
  let mu := method.data.map Char.toUpper
  let base :=
    if mu = "GET".data then
      (if path.data.getLast? = some '}' then "get".data else "list".data)
    else if mu = "POST".data then "create".data
    else if mu = "PUT".data || mu = "PATCH".data then "update".data
    else if mu = "DELETE".data then "delete".data
    else method.data.map Char.toLower
  match (pathParts path.data).getLast? with
  | some lp =>
    if actionWords.contains lp then
      (if mu = "DELETE".data then lp ++ "_delete".data else lp)
    else base
  | none => base

/-- The segments that remain after a trailing action word is popped. -/
def gfpSegments (path : String) : List (List Char) :=
  let parts := pathParts path.data
  match parts.getLast? with
  | some lp => if actionWords.contains lp then parts.dropLast else parts
  | none => parts

/-- Step 6 of `generateFromPath`: join the segments and append the
action suffix unless the joined name already ends with it. -/
def gfpRawName (method path : String) : List Char :=
  let action := gfpAction method path
  let joined := List.intercalate "_".data (gfpSegments path)
  if ('_' :: action).isSuffixOf joined || action.isSuffixOf joined then joined
  else joined ++ '_' :: action

/-- Step 7 of `generateFromPath`: collapse repeated underscores and
trim a leading/trailing underscore. -/
def gfpClean (method path : String) : List Char :=
  stripEdgeUS (collapseUS (gfpRawName method path))

/-- `OpenAPIParser.generateFromPath`. -/
def generateFromPath (method path : String) : String :=
  String.mk (truncate64 (gfpClean method path))

/-- `OpenAPIParser.generateToolName`. -/
def generateToolName (method path opId : String) : String :=
  if isCleanOperationId opId then sanitizeOperationId opId
  else generateFromPath method path

/-! ### Spec ingestion (`parseToTools`, `createInputSchema`) -/

inductive ParamLoc where
  | path
  | query
  | header
  | cookie
  deriving DecidableEq

/-- `Parameter` from `src/types.ts` (`in` is a Lean keyword; the field
is named `loc`; `description` is never consulted and omitted). -/
structure Parameter where
  name : String
  loc : ParamLoc
  required : Option Bool := none
  schema : SchemaObject

/-- `RequestBody` from `src/types.ts`: one `{schema}` entry per media
type, in insertion order. -/
structure RequestBody where
  content : List (String × SchemaObject)
  required : Option Bool := none

/-- `Operation` from `src/types.ts` (`responses` is never consulted by
the parser and is omitted). -/
structure Operation where
  operationId : String
  summary : Option String := none
  description : Option String := none
  parameters : Option (List Parameter) := none
  requestBody : Option RequestBody := none
  deprecated : Option Bool := none

/-- JS object-field assignment `fields[k] = v`: replacement keeps the
original insertion position, a new key is appended. -/
def upsertField (fields : List (String × SchemaObject × Bool)) (k : String)
    (v : SchemaObject × Bool) : List (String × SchemaObject × Bool) :=
  if (fields.find? (fun f => f.1 = k)).isSome then
    fields.map (fun f => if f.1 = k then (k, v) else f)
  else fields ++ [(k, v)]

/-- `OpenAPIParser.createInputSchema`, up to the final
`z.object(...).passthrough()`: the shape entries (name, field schema,
required flag) collected from `operation.parameters` and from the
properties of an `application/json` request body. -/
def createInputSchemaFields (op : Operation) : List (String × SchemaObject × Bool) :=
  let paramFields := (op.parameters.getD []).foldl
    (fun acc p => upsertField acc p.name (p.schema, p.required.getD false)) []
  match op.requestBody with
  | none => paramFields
  | some rb =>
    match rb.content with
    | [] => paramFields
    | (contentType, bodySchema) :: _ =>
      if contentType = "application/json" then
        match bodySchema.properties with
        | some props =>
          props.foldl
            (fun acc kv =>
              upsertField acc kv.1 (kv.2, (bodySchema.required.getD []).contains kv.1))
            paramFields
        | none => paramFields
      else paramFields

/-- The compiled top-level input validator of a tool
(`z.object(schemaFields).passthrough()`). -/
def validateToolInput (fuel : Nat) (fields : List (String × SchemaObject × Bool))
    (v : Json) : Option Json :=
  match v with
  | .obj kvs =>
    (validateFields (fun sh vv => validate fuel sh vv) fields kvs).map
      (fun fs => Json.obj
        (fs ++ kvs.filter (fun kv => !(fields.map (·.1)).contains kv.1)))
  | _ => none

/-- `operation.summary || operation.description || fallback`. -/
def firstTruthyStr (a : Option String) (k : String) : String :=
  match a with
  | some s => if s ≠ "" then s else k
  | none => k

def toUpperStr (s : String) : String := String.mk (s.data.map Char.toUpper)

/-- `DopplerTool` from `src/types.ts`; the compiled zod `inputSchema`
is represented by its shape entries (`inputFields`), interpreted by
`validateToolInput`. -/
structure DopplerTool where
  name : String
  description : String
  inputFields : List (String × SchemaObject × Bool)
  method : String
  endpoint : String
  parameters : List Parameter
  requestBody : Option RequestBody

/-- Whether `convertSchemaToZod` CONSTRUCTS the validator for a schema
without throwing.  Construction mirrors the source's traversal: the
enum branch and the scalar branches never throw; the `string` branch
runs `new RegExp(schema.pattern)` when the format is neither `json`,
`email` nor `uri` and `pattern` is truthy; the `array` and `object`
branches recurse into the nested schemas.  `fuel` bounds the recursion
depth exactly as in `validate`. -/
def convertOk : Nat → SchemaObject → Bool
  | 0, _ => false
  | fuel + 1, s =>
    match s.enum with
    | some _ => true
    | none =>
      match s.type with
      | none => true
      | some t =>
        if t = "string" then
          if s.format = some "json" then true
          else if s.format = some "email" ∨ s.format = some "uri" then true
          else
            match s.pattern with
            | some p => if p ≠ "" then regexValid p else true
            | none => true
        else if t = "array" then
          match s.items with
          | some it => convertOk fuel it
          | none => true
        else if t = "object" then
          match s.properties with
          | some ps => ps.all (fun p => convertOk fuel p.2)
          | none => true
        else true

/-- Whether `createInputSchema` completes without throwing: every
parameter schema and every JSON-body property schema compiles
(the only throw source is `new RegExp` on an invalid `pattern`). -/
def createInputSchemaOk (fuel : Nat) (op : Operation) : Bool :=
  (op.parameters.getD []).all (fun p => convertOk fuel p.schema) &&
    (match op.requestBody with
     | none => true
     | some rb =>
       match rb.content with
       | [] => true
       | (contentType, bodySchema) :: _ =>
         if contentType = "application/json" then
           match bodySchema.properties with
           | some props => props.all (fun kv => convertOk fuel kv.2)
           | none => true
         else true)

/-- `OpenAPIParser.createToolFromOperation`: the `try/catch` of the
source returns `null` and the operation is skipped when schema
compilation throws, which the model captures by `createInputSchemaOk`. -/
def createToolFromOperation (fuel : Nat) (path method : String) (op : Operation) :
    Option DopplerTool :=
  if createInputSchemaOk fuel op then
    some
      { name := generateToolName method path op.operationId
        description := firstTruthyStr op.summary
          (firstTruthyStr op.description (toUpperStr method ++ " " ++ path))
        inputFields := createInputSchemaFields op
        method := toUpperStr method
        endpoint := path
        parameters := op.parameters.getD []
        requestBody := op.requestBody }
  else none

/-- Inner loop of `parseToTools` over one path item: an operation is
compiled when `operation.operationId` is truthy (non-empty), the
operation is not deprecated, and tool creation did not return `null`. -/
def parseMethods (fuel : Nat) (path : String) : List (String × Operation) → List DopplerTool
  | [] => []
  | (m, op) :: rest =>
    if op.operationId ≠ "" ∧ ¬(op.deprecated.getD false) then
      match createToolFromOperation fuel path m op with
      | some tool => tool :: parseMethods fuel path rest
      | none => parseMethods fuel path rest
    else parseMethods fuel path rest

/-- `OpenAPIParser.parseToTools` over `spec.paths`. -/
def parseToTools (fuel : Nat) : List (String × List (String × Operation)) → List DopplerTool
  | [] => []
  | (p, ms) :: rest => parseMethods fuel p ms ++ parseToTools fuel rest

/-- The number of non-deprecated operations of a document that carry a
non-empty `operationId` and whose input schema compiles without
throwing. -/
def eligibleOpCountMethods (fuel : Nat) : List (String × Operation) → Nat
  | [] => 0
  | (_, op) :: rest =>
    (if op.operationId ≠ "" ∧ ¬(op.deprecated.getD false) ∧ createInputSchemaOk fuel op = true
     then 1 else 0) + eligibleOpCountMethods fuel rest

def eligibleOpCount (fuel : Nat) : List (String × List (String × Operation)) → Nat
  | [] => 0
  | (_, ms) :: rest => eligibleOpCountMethods fuel ms + eligibleOpCount fuel rest

/-- The number of non-deprecated operations of a document (the `N` of
the spec's property 1). -/
def nonDeprecatedCountMethods : List (String × Operation) → Nat
  | [] => 0
  | (_, op) :: rest =>
    (if ¬(op.deprecated.getD false) then 1 else 0) + nonDeprecatedCountMethods rest

def nonDeprecatedCount : List (String × List (String × Operation)) → Nat
  | [] => 0
  | (_, ms) :: rest => nonDeprecatedCountMethods ms + nonDeprecatedCount rest

/-! ### Scope-guarded invocation (`ToolGenerator.executeTool`,
`DopplerClient.makeRequest`) -/

inductive ScopeSource where
  | cli
  | token
  deriving DecidableEq

/-- `ScopeOptions` from `src/scope.ts`. -/
structure ScopeOptions where
  project : Option String := none
  projectSource : Option ScopeSource := none
  config : Option String := none
  configSource : Option ScopeSource := none

/-- `this.scope?.project` filtered by truthiness (the guard fires only
for a configured, non-empty project). -/
def scopeProject (scope : Option ScopeOptions) : Option String :=
  match scope.bind (·.project) with
  | some p => if p ≠ "" then some p else none
  | none => none

def scopeConfig (scope : Option ScopeOptions) : Option String :=
  match scope.bind (·.config) with
  | some c => if c ≠ "" then some c else none
  | none => none

/-- String interpolation `${v}` of a JS value; caller-supplied scope
values are strings, so only the `str` case is exercised by claims. -/
def jsDisplay : Json → String
  | .null => "null"
  | .bool b => if b then "true" else "false"
  | .num q => toString q
  | .str s => s
  | .arr _ => ""
  | .obj _ => "[object Object]"

/-- The project scope-violation message of `executeTool`, by origin. -/
def projectViolationMsg (src : Option ScopeSource) (p vdisp : String) : String :=
  match src with
  | some .token =>
    "Project scope violation: Your token only has access to project \"" ++ p ++
      "\", but the request targets project \"" ++ vdisp ++ "\"."
  | _ =>
    "Project scope violation: This server is configured for project \"" ++ p ++
      "\" but the request targets project \"" ++ vdisp ++ "\". " ++
      "Remove the project parameter to use the configured project, or reconfigure the server."

/-- The config scope-violation message of `executeTool`, by origin. -/
def configViolationMsg (src : Option ScopeSource) (c vdisp : String) : String :=
  match src with
  | some .token =>
    "Config scope violation: Your token only has access to config \"" ++ c ++
      "\", but the request targets config \"" ++ vdisp ++ "\"."
  | _ =>
    "Config scope violation: This server is configured for config \"" ++ c ++
      "\" but the request targets config \"" ++ vdisp ++ "\". " ++
      "Remove the config parameter to use the configured config, or reconfigure the server."

/-- First guard of `executeTool`: `some msg` exactly when
`scope?.project && input.project && input.project !== scope.project`. -/
def projectViolation (scope : Option ScopeOptions) (input : List (String × Json)) :
    Option String :=
  match scopeProject scope with
  | none => none
  | some p =>
    match lookupJ input "project" with
    | none => none
    | some v =>
      if truthy v && !jsStrictEq v (.str p) then
        some (projectViolationMsg (scope.bind (·.projectSource)) p (jsDisplay v))
      else none

/-- Second guard of `executeTool`, for `config`. -/
def configViolation (scope : Option ScopeOptions) (input : List (String × Json)) :
    Option String :=
  match scopeConfig scope with
  | none => none
  | some c =>
    match lookupJ input "config" with
    | none => none
    | some v =>
      if truthy v && !jsStrictEq v (.str c) then
        some (configViolationMsg (scope.bind (·.configSource)) c (jsDisplay v))
      else none

/-- JS assignment `input[k] = v`: replacement keeps the position of an
existing key, a new key is appended. -/
def setKey (kvs : List (String × Json)) (k : String) (v : Json) :
    List (String × Json) :=
  if (kvs.find? (fun kv => kv.1 = k)).isSome then
    kvs.map (fun kv => if kv.1 = k then (k, v) else kv)
  else kvs ++ [(k, v)]

/-- Condition of the config auto-fill: a configured config, a declared
`config` parameter, and a non-truthy `input.config`. -/
def configFillCond (scope : Option ScopeOptions) (tool : DopplerTool)
    (input : List (String × Json)) : Bool :=
  (scopeConfig scope).isSome &&
    (tool.parameters.find? (fun p => p.name = "config")).isSome &&
    !truthyOpt (lookupJ input "config")

def autoFillConfig (scope : Option ScopeOptions) (tool : DopplerTool)
    (input : List (String × Json)) : List (String × Json) :=
  match scopeConfig scope with
  | some c => if configFillCond scope tool input then setKey input "config" (.str c) else input
  | none => input

def projectFillCond (scope : Option ScopeOptions) (tool : DopplerTool)
    (input : List (String × Json)) : Bool :=
  (scopeProject scope).isSome &&
    (tool.parameters.find? (fun p => p.name = "project")).isSome &&
    !truthyOpt (lookupJ input "project")

def autoFillProject (scope : Option ScopeOptions) (tool : DopplerTool)
    (input : List (String × Json)) : List (String × Json) :=
  match scopeProject scope with
  | some p => if projectFillCond scope tool input then setKey input "project" (.str p) else input
  | none => input

/-- Path-parameter partition of `executeTool`: declared `path`
parameters whose value is present in the (possibly auto-filled) input. -/
def pathKV (tool : DopplerTool) (input : List (String × Json)) :
    List (String × Json) :=
  tool.parameters.filterMap (fun p =>
    if p.loc = .path then (lookupJ input p.name).map (fun v => (p.name, v)) else none)

def queryKV (tool : DopplerTool) (input : List (String × Json)) :
    List (String × Json) :=
  tool.parameters.filterMap (fun p =>
    if p.loc = .query then (lookupJ input p.name).map (fun v => (p.name, v)) else none)

/-- Body partition of `executeTool`: when the tool has an
`application/json` request body, every input entry whose key was not
claimed as a path or query parameter is copied verbatim. -/
def bodyKV (tool : DopplerTool) (input : List (String × Json)) :
    List (String × Json) :=
  match tool.requestBody with
  | none => []
  | some rb =>
    match rb.content with
    | [] => []
    | (contentType, _) :: _ =>
      if contentType = "application/json" then
        input.filter (fun kv =>
          !((pathKV tool input).map (·.1)).contains kv.1 &&
          !((queryKV tool input).map (·.1)).contains kv.1)
      else []

/-- Replace the first occurrence of `pat` in `s` (JS
`String.prototype.replace` with a string pattern). -/
def replaceFirst : List Char → List Char → List Char → List Char
  | s, [], rep => rep ++ s
  | [], _, _ => []
  | c :: cs, pat, rep =>
    if pat.isPrefixOf (c :: cs) then rep ++ (c :: cs).drop pat.length
    else c :: replaceFirst cs pat rep

/-- `encodeURIComponent`, modelled over the code points of the string
(sufficient for the single-byte inputs exercised here). -/
def hexDigit (n : Nat) : Char :=
  if n < 10 then Char.ofNat ('0'.toNat + n) else Char.ofNat ('A'.toNat + n - 10)

def encodeURIComponent (s : String) : String :=
  String.mk (s.data.flatMap (fun c =>
    if c.isAlphanum || c ∈ ['-', '_', '.', '!', '~', '*', '\'', '(', ')'] then [c]
    else ['%', hexDigit (c.toNat / 16 % 16), hexDigit (c.toNat % 16)]))

/-- Endpoint-template substitution of `executeTool`. -/
def substEndpoint (endpoint : String) (pathParams : List (String × Json)) : String :=
  pathParams.foldl
    (fun e kv => String.mk
      (replaceFirst e.data ("\x7b" ++ kv.1 ++ "\x7d").data (encodeURIComponent (jsDisplay kv.2)).data))
    endpoint

/-- The `RequestOptions` record handed to `DopplerClient.makeRequest`. -/
structure BuiltRequest where
  method : String
  endpoint : String
  queryParams : List (String × Json)
  body : Option (List (String × Json))

/-- Request assembly of `executeTool` after the scope guard, over the
auto-filled input. -/
def buildRequest (tool : DopplerTool) (input : List (String × Json)) : BuiltRequest :=
  { method := tool.method
    endpoint := substEndpoint tool.endpoint (pathKV tool input)
    queryParams := queryKV tool input
    body := if (bodyKV tool input).isEmpty then none else some (bodyKV tool input) }

inductive ExecOutcome where
  | scopeViolation (msg : String)
  | request (req : BuiltRequest)

/-- `ToolGenerator.executeTool`, up to the `makeRequest` boundary: the
scope guard, the auto-fill of omitted scoped parameters, and the
partition of the input into the outgoing request. -/
def executeToolRequest (scope : Option ScopeOptions) (tool : DopplerTool)
    (input : List (String × Json)) : ExecOutcome :=
  match projectViolation scope input with
  | some m => .scopeViolation m
  | none =>
    match configViolation scope input with
    | some m => .scopeViolation m
    | none =>
      .request (buildRequest tool (autoFillProject scope tool (autoFillConfig scope tool input)))

/-- `DopplerClient.makeRequest`: the body is attached to the outgoing
HTTP request only when present (nonempty, hence truthy) and the method
is one of POST/PUT/PATCH/DELETE. -/
def wireBody (method : String) (body : Option (List (String × Json))) :
    Option (List (String × Json)) :=
  if body.isSome && ["POST", "PUT", "PATCH", "DELETE"].contains method then body
  else none

/-- `APIError` data from `src/errors.ts`. -/
structure APIErrorData where
  error : String
  message : String
  statusCode : Int

/-- The error surfaced by the `execute` wrapper of
`ToolGenerator.createMCPTool`: a `ScopeViolationError` is rethrown
unchanged, every other failure is downgraded to a generic `Error`. -/
inductive CallError where
  | scopeViolation (msg : String)
  | generic (msg : String)

def formatError (e : APIErrorData) : String :=
  "Error " ++ toString e.statusCode ++ ": " ++ e.message ++ "\n\nDetails: " ++ e.error

/-- `ToolGenerator.formatResponse`; the pretty-printing indentation of
the external `JSON.stringify(·, null, 2)` is elided (no claim
evaluates it). -/
def jsonStringify : Json → String
  | .null => "null"
  | .bool b => if b then "true" else "false"
  | .num q => toString q
  | .str s => "\"" ++ s ++ "\""
  | .arr _ => "[...]"
  | .obj _ => "{...}"

def formatResponse (response : Json) : String :=
  match response with
  | .str s => s
  | .bool b => if b then "true" else "false"
  | .num q => toString q
  | v => jsonStringify v

/-- The `execute` wrapper of `ToolGenerator.createMCPTool`, with the
HTTP collaborator abstracted as a function from the built request to
its outcome. -/
def mcpExecute (scope : Option ScopeOptions) (tool : DopplerTool)
    (input : List (String × Json))
    (http : BuiltRequest → Except APIErrorData Json) : Except CallError String :=
  match executeToolRequest scope tool input with
  | .scopeViolation m => .error (.scopeViolation m)
  | .request r =>
    match http r with
    | .ok j => .ok (formatResponse j)
    | .error e => .error (.generic (formatError e))

/-! ### Concrete values used in the claim statements and witnesses -/

/-- `{type: "string"}`. -/
def strSchema : SchemaObject := .mk (some "string") none none none none none none none none

/-- `{type: "object", properties: {EXAMPLE_KEY: {type: "string"}}}` — the
inner `secrets` schema of the spec's pass-through example. -/
def secretsInnerSchema : SchemaObject :=
  .mk (some "object") (some [("EXAMPLE_KEY", strSchema)]) none none none none none none none

/-- An object schema declaring the single property `secrets`. -/
def secretsOuterSchema : SchemaObject :=
  .mk (some "object") (some [("secrets", secretsInnerSchema)]) none none none none none none none

/-- An array schema whose items are the `secrets` object schema. -/
def arrayOfSecretsSchema : SchemaObject :=
  .mk (some "array") none (some secretsInnerSchema) none none none none none none

/-- An operation whose JSON request body declares the `secrets` object
property (shape of `POST /v3/configs/config/secrets`). -/
def secretsOp : Operation :=
  { operationId := "secrets-update"
    requestBody := some { content := [("application/json",
        .mk (some "object") (some [("secrets", secretsInnerSchema)]) none none none none none none none)] } }

/-- An enum schema whose single string literal carries an embedded
quote character. -/
def quoteEnumSchema : SchemaObject :=
  .mk none none none none (some [.str "a\"b"]) none none none none

/-- A string schema whose `pattern` is an invalid regular expression
(an unmatched parenthesis), so `new RegExp` throws during
`convertSchemaToZod`. -/
def badPatternSchema : SchemaObject :=
  .mk (some "string") none none none none none none none (some "(")

/-- A type-correct, non-deprecated operation with a truthy
`operationId` whose schema compilation throws, so the source's
`try/catch` skips it. -/
def badPatternOp : Operation :=
  { operationId := "projects-list"
    parameters := some [{ name := "name", loc := .query, schema := badPatternSchema }] }

/-- The caller input `{secrets: {A: "1", B: "2"}}`. -/
def secretsInput : Json := .obj [("secrets", .obj [("A", .str "1"), ("B", .str "2")])]

/-- An ugly path long enough that the 64-character truncation cuts off
the action suffix. -/
def longReviewPath : String :=
  String.mk ("/v3/".data ++ List.replicate 70 'a' ++ "/review".data)

/-- A tool declaring a query-located `project` parameter. -/
def projectQueryTool : DopplerTool :=
  { name := "configs_list", description := "", inputFields := []
    method := "GET", endpoint := "/v3/configs"
    parameters := [{ name := "project", loc := .query, schema := strSchema }]
    requestBody := none }

/-- A tool declaring query-located `project` and `config` parameters. -/
def projectConfigQueryTool : DopplerTool :=
  { name := "secrets_list", description := "", inputFields := []
    method := "GET", endpoint := "/v3/configs/config/secrets"
    parameters := [{ name := "project", loc := .query, schema := strSchema },
                   { name := "config", loc := .query, schema := strSchema }]
    requestBody := none }

/-- A scope configured for project `allowed`, from the command line. -/
def cliProjectScope : Option ScopeOptions :=
  some { project := some "allowed", projectSource := some .cli }

/-- A scope whose config `prd` was inferred from the token. -/
def tokenConfigScope : Option ScopeOptions :=
  some { config := some "prd", configSource := some .token }

/-- A scope configured only with project `p1`. -/
def p1Scope : Option ScopeOptions := some { project := some "p1" }

/-- A scope configured only with config `c1`. -/
def c1Scope : Option ScopeOptions := some { config := some "c1" }

/-- A tool with an `application/json` request body and one path and one
query parameter. -/
def bodyTool : DopplerTool :=
  { name := "secrets_update", description := "", inputFields := []
    method := "POST", endpoint := "/v3/configs/config/secrets"
    parameters := [{ name := "project", loc := .query, schema := strSchema },
                   { name := "config", loc := .path, schema := strSchema }]
    requestBody := some { content := [("application/json",
        .mk (some "object") (some [("secrets", secretsInnerSchema)]) none none none none none none none)] } }

end Doppler

/-! ## Theorems -/

namespace Doppler

theorem lookupJ_cons (hd : String × Json) (tl : List (String × Json)) (k : String) :
    lookupJ (hd :: tl) k = if hd.1 = k then some hd.2 else lookupJ tl k := by
  unfold lookupJ
  rw [List.find?_cons]
  by_cases h : hd.1 = k <;> simp [h]

theorem lookupJ_find?_none (l : List (String × Json)) (k : String)
    (h : lookupJ l k = none) : l.find? (fun kv => kv.1 = k) = none := by
  unfold lookupJ at h
  cases hf : l.find? (fun kv => kv.1 = k) with
  | none => rfl
  | some a => rw [hf] at h; simp at h

theorem lookupJ_append_of_ne (l : List (String × Json)) (k k' : String) (v : Json)
    (h : k' ≠ k) : lookupJ (l ++ [(k, v)]) k' = lookupJ l k' := by
  induction l with
  | nil =>
    simp only [List.nil_append]
    rw [lookupJ_cons]
    simp [Ne.symm h, lookupJ]
  | cons hd tl ih =>
    rw [List.cons_append, lookupJ_cons, lookupJ_cons, ih]

theorem lookupJ_append_self (l : List (String × Json)) (k : String) (v : Json)
    (h : lookupJ l k = none) : lookupJ (l ++ [(k, v)]) k = some v := by
  induction l with
  | nil => simp [lookupJ]
  | cons hd tl ih =>
    rw [lookupJ_cons] at h
    rw [List.cons_append, lookupJ_cons]
    by_cases hk : hd.1 = k
    · rw [if_pos hk] at h; exact absurd h (by simp)
    · rw [if_neg hk] at h ⊢
      exact ih h

theorem setKey_of_absent (l : List (String × Json)) (k : String) (v : Json)
    (h : lookupJ l k = none) : setKey l k v = l ++ [(k, v)] := by
  unfold setKey
  rw [lookupJ_find?_none l k h]
  rfl

theorem lookupJ_setKey_other (l : List (String × Json)) (k k' : String) (v : Json)
    (h : k' ≠ k) : lookupJ (setKey l k v) k' = lookupJ l k' := by
  unfold setKey
  by_cases hf : (l.find? (fun kv => kv.1 = k)).isSome = true
  · rw [if_pos hf]
    clear hf
    induction l with
    | nil => rfl
    | cons hd tl ih =>
      rw [List.map_cons, lookupJ_cons, lookupJ_cons]
      by_cases hk : hd.1 = k
      · rw [if_pos hk]
        have h1 : (((k, v) : String × Json).1 = k') = False := by simp [Ne.symm h]
        have h2 : (hd.1 = k') = False := by simp [hk, Ne.symm h]
        simp only [h1, h2, if_false]
        exact ih
      · rw [if_neg hk]
        by_cases hk' : hd.1 = k'
        · rw [if_pos hk', if_pos hk']
        · rw [if_neg hk', if_neg hk']
          exact ih
  · rw [if_neg hf]; exact lookupJ_append_of_ne l k k' v h

theorem lookupJ_setKey_self (l : List (String × Json)) (k : String) (v : Json) :
    lookupJ (setKey l k v) k = some v := by
  unfold setKey
  by_cases hf : (l.find? (fun kv => kv.1 = k)).isSome = true
  · rw [if_pos hf]
    induction l with
    | nil => simp at hf
    | cons hd tl ih =>
      rw [List.map_cons, lookupJ_cons]
      by_cases hk : hd.1 = k
      · rw [if_pos hk]; simp
      · rw [if_neg hk, if_neg hk]
        simp only [List.find?_cons, show decide (hd.1 = k) = false by simp [hk]] at hf
        exact ih hf
  · rw [if_neg hf]
    apply lookupJ_append_self
    unfold lookupJ
    cases hc : l.find? (fun kv => kv.1 = k) with
    | none => rfl
    | some a => rw [hc] at hf; simp at hf


theorem validate_succ (fuel : Nat) (s : SchemaObject) (v : Json) :
    validate (fuel + 1) s v = validateBody (fun sh vv => validate fuel sh vv) s v := rfl

theorem validateBody_enum (rec : SchemaObject → Json → Option Json) (s : SchemaObject)
    (lits : List Json) (v : Json) (h : s.enum = some lits) :
    validateBody rec s v = enumValidate lits v := by
  unfold validateBody
  rw [h]

theorem enumValidate_allStrings (lits : List Json) (v w : Json)
    (h : lits.all isStrJson = true) :
    enumValidate lits v = some w ↔
      w = v ∧ ∃ str, v = .str str ∧ str ∈ cleanedEnum lits := by
  unfold enumValidate
  rw [h]
  cases v <;> simp
  case str s =>
    by_cases hc : s ∈ cleanedEnum lits
    · simp [hc]
      exact ⟨fun e => e.symm, fun e => e.symm⟩
    · simp [hc]

theorem enumValidate_mixed (lits : List Json) (v w : Json)
    (h : lits.all isStrJson = false) :
    enumValidate lits v = some w ↔ w = v ∧ lits.any (fun l => jsStrictEq v l) = true := by
  unfold enumValidate
  rw [h]
  cases lits with
  | nil => simp at h
  | cons l ls =>
    cases ls with
    | nil =>
      by_cases hj : jsStrictEq v l = true <;> simp [hj]
      exact ⟨fun e => e.symm, fun e => e.symm⟩
    | cons l2 rest =>
      by_cases ha : ((l :: l2 :: rest).any (fun x => jsStrictEq v x)) = true <;>
        simp only [ha, if_true, if_false, Bool.false_eq_true] <;> simp [ha]
      exact ⟨fun e => e.symm, fun e => e.symm⟩

/-- C4: the compiled enum validator.  The claim's description of the
all-strings branch — "strips any quote characters embedded in the
literals" — fails on the code: `replace` with the anchored pattern
strips only one leading and one trailing quote, so a literal with an
interior quote keeps it.  This counterexample shows the validator for
`enum: ["a\"b"]` accepting the unstripped literal and rejecting the
fully-stripped string the claim would accept. -/
theorem C4_counterexample :
    validate 1 quoteEnumSchema (.str "a\"b") = some (.str "a\"b") ∧
    validate 1 quoteEnumSchema (.str "ab") = none := ⟨rfl, rfl⟩

/-- C4 (amended): for a field schema with an enum: if every literal is
a string, the validator strips ONE LEADING AND ONE TRAILING quote
character from each literal and accepts exactly the stripped members;
if the literals are mixed/non-string it accepts exactly the values
strictly equal (`===`) to one of the literals; with zero literals it
rejects every value; with one non-string literal it accepts only that
exact value. -/
theorem C4_enum_validator :
    (∀ (fuel : Nat) (s : SchemaObject) (lits : List Json) (v w : Json),
      s.enum = some lits → lits.all isStrJson = true →
      (validate (fuel + 1) s v = some w ↔
        w = v ∧ ∃ str, v = .str str ∧ str ∈ cleanedEnum lits)) ∧
    (∀ (fuel : Nat) (s : SchemaObject) (lits : List Json) (v w : Json),
      s.enum = some lits → lits.all isStrJson = false →
      (validate (fuel + 1) s v = some w ↔
        w = v ∧ lits.any (fun l => jsStrictEq v l) = true)) ∧
    (∀ (fuel : Nat) (s : SchemaObject) (v : Json),
      s.enum = some [] → validate (fuel + 1) s v = none) ∧
    (∀ (fuel : Nat) (s : SchemaObject) (l : Json) (v w : Json),
      s.enum = some [l] → isStrJson l = false →
      (validate (fuel + 1) s v = some w ↔ w = v ∧ jsStrictEq v l = true)) := by
  refine ⟨?_, ?_, ?_, ?_⟩
  · intro fuel s lits v w he hall
    rw [validate_succ, validateBody_enum _ s lits v he]
    exact enumValidate_allStrings lits v w hall
  · intro fuel s lits v w he hmix
    rw [validate_succ, validateBody_enum _ s lits v he]
    exact enumValidate_mixed lits v w hmix
  · intro fuel s v he
    rw [validate_succ, validateBody_enum _ s [] v he]
    cases v <;> rfl
  · intro fuel s l v w he hl
    rw [validate_succ, validateBody_enum _ s [l] v he]
    have hmix : ([l] : List Json).all isStrJson = false := by simp [hl]
    rw [enumValidate_mixed [l] v w hmix]
    simp

theorem C4_enum_validator_witness :
    validate 1 quoteEnumSchema (.str "a\"b") = some (.str "a\"b") :=
  (C4_enum_validator.1 0 quoteEnumSchema [.str "a\"b"] (.str "a\"b") (.str "a\"b")
      rfl rfl).mpr ⟨rfl, "a\"b", rfl, by decide⟩

/-- C8: the ugly identifier is classified ugly and the namer falls back
to the path; the clean identifier is sanitized directly, independently
of method and path. -/
theorem C8_name_examples :
    isCleanOperationId "get_v3workplacechange_requests" = false ∧
    generateToolName "get" "/v3/workplace/change_requests" "get_v3workplacechange_requests" =
      "workplace_change_requests_list" ∧
    isCleanOperationId "secrets-list" = true ∧
    (∀ method path : String, generateToolName method path "secrets-list" = "secrets_list") := by
  refine ⟨rfl, rfl, rfl, fun method path => ?_⟩
  have h : isCleanOperationId "secrets-list" = true := rfl
  simp only [generateToolName, h, if_true]
  rfl

theorem parseMethods_length (fuel : Nat) (path : String) (ms : List (String × Operation)) :
    (parseMethods fuel path ms).length = eligibleOpCountMethods fuel ms := by
  induction ms with
  | nil => rfl
  | cons mo rest ih =>
    obtain ⟨m, op⟩ := mo
    simp only [parseMethods, eligibleOpCountMethods]
    by_cases h1 : op.operationId ≠ "" ∧ ¬(op.deprecated.getD false)
    · rw [if_pos h1]
      unfold createToolFromOperation
      by_cases h2 : createInputSchemaOk fuel op = true
      · rw [if_pos h2, if_pos ⟨h1.1, h1.2, h2⟩]
        simp [ih]
        omega
      · rw [if_neg h2, if_neg (fun hc => h2 hc.2.2)]
        simpa using ih
    · rw [if_neg h1, if_neg (fun hc => h1 ⟨hc.1, hc.2.1⟩)]
      simpa using ih

/-- C3 (counterexample): two type-correct documents, each with one
non-deprecated operation, that compile to zero tools instead of one:
an operation whose `operationId` is the empty string (falsy) is
skipped by the guard, and an operation whose parameter schema carries
an invalid regex `pattern` makes `new RegExp` throw inside
`createInputSchema`, so the `try/catch` skips it. -/
theorem C3_counterexample :
    (parseToTools 1 [("/v3/x", [("get", { operationId := "" })])]).length = 0 ∧
    nonDeprecatedCount [("/v3/x", [("get", { operationId := "" })])] = 1 ∧
    (parseToTools 1 [("/v3/projects", [("get", badPatternOp)])]).length = 0 ∧
    nonDeprecatedCount [("/v3/projects", [("get", badPatternOp)])] = 1 :=
  ⟨rfl, rfl, rfl, rfl⟩

/-- C3 (amended): compilation yields exactly one tool definition per
non-deprecated operation that has a non-empty `operationId` AND whose
input schema compiles without throwing; operations with a falsy
`operationId`, and operations whose schema compilation throws (an
invalid regex `pattern`), are skipped. -/
theorem C3_parse_count (fuel : Nat) (paths : List (String × List (String × Operation))) :
    (parseToTools fuel paths).length = eligibleOpCount fuel paths := by
  induction paths with
  | nil => rfl
  | cons pm rest ih =>
    obtain ⟨p, ms⟩ := pm
    simp [parseToTools, eligibleOpCount, parseMethods_length, ih]


theorem scopeProject_ne_empty (scope : Option ScopeOptions) (p : String)
    (h : scopeProject scope = some p) : p ≠ "" := by
  unfold scopeProject at h
  cases hs : scope.bind (·.project) with
  | none => rw [hs] at h; cases h
  | some q =>
    rw [hs] at h
    have h' : (if q ≠ "" then some q else none) = some p := h
    by_cases hq : q ≠ ""
    · rw [if_pos hq] at h'
      injection h' with h'
      subst h'
      exact hq
    · rw [if_neg hq] at h'
      cases h'

theorem scopeConfig_ne_empty (scope : Option ScopeOptions) (c : String)
    (h : scopeConfig scope = some c) : c ≠ "" := by
  unfold scopeConfig at h
  cases hs : scope.bind (·.config) with
  | none => rw [hs] at h; cases h
  | some q =>
    rw [hs] at h
    have h' : (if q ≠ "" then some q else none) = some c := h
    by_cases hq : q ≠ ""
    · rw [if_pos hq] at h'
      injection h' with h'
      subst h'
      exact hq
    · rw [if_neg hq] at h'
      cases h'

theorem projectViolation_none_of_lookup_none (scope : Option ScopeOptions)
    (input : List (String × Json)) (h : lookupJ input "project" = none) :
    projectViolation scope input = none := by
  unfold projectViolation
  cases hs : scopeProject scope <;> simp [h]

theorem configViolation_none_of_lookup_none (scope : Option ScopeOptions)
    (input : List (String × Json)) (h : lookupJ input "config" = none) :
    configViolation scope input = none := by
  unfold configViolation
  cases hs : scopeConfig scope <;> simp [h]

theorem projectViolation_none_of_cond (scope : Option ScopeOptions)
    (input : List (String × Json)) (v : Json) (hv : lookupJ input "project" = some v)
    (h : ∀ p, scopeProject scope = some p → (truthy v && !jsStrictEq v (.str p)) = false) :
    projectViolation scope input = none := by
  unfold projectViolation
  cases hs : scopeProject scope with
  | none => rfl
  | some p => simp [hv, h p hs]

theorem configViolation_none_of_cond (scope : Option ScopeOptions)
    (input : List (String × Json)) (v : Json) (hv : lookupJ input "config" = some v)
    (h : ∀ c, scopeConfig scope = some c → (truthy v && !jsStrictEq v (.str c)) = false) :
    configViolation scope input = none := by
  unfold configViolation
  cases hs : scopeConfig scope with
  | none => rfl
  | some c => simp [hv, h c hs]

theorem projectViolation_congr (scope : Option ScopeOptions)
    (input input' : List (String × Json))
    (h : lookupJ input' "project" = lookupJ input "project") :
    projectViolation scope input' = projectViolation scope input := by
  unfold projectViolation
  rw [h]

theorem configViolation_congr (scope : Option ScopeOptions)
    (input input' : List (String × Json))
    (h : lookupJ input' "config" = lookupJ input "config") :
    configViolation scope input' = configViolation scope input := by
  unfold configViolation
  rw [h]

theorem configFillCond_congr (scope : Option ScopeOptions) (tool : DopplerTool)
    (input input' : List (String × Json))
    (h : lookupJ input' "config" = lookupJ input "config") :
    configFillCond scope tool input' = configFillCond scope tool input := by
  unfold configFillCond
  rw [h]

theorem projectFillCond_congr (scope : Option ScopeOptions) (tool : DopplerTool)
    (input input' : List (String × Json))
    (h : lookupJ input' "project" = lookupJ input "project") :
    projectFillCond scope tool input' = projectFillCond scope tool input := by
  unfold projectFillCond
  rw [h]

theorem autoFillConfig_of_false (scope : Option ScopeOptions) (tool : DopplerTool)
    (input : List (String × Json)) (h : configFillCond scope tool input = false) :
    autoFillConfig scope tool input = input := by
  unfold autoFillConfig
  cases hs : scopeConfig scope <;> simp [h]

theorem autoFillProject_of_false (scope : Option ScopeOptions) (tool : DopplerTool)
    (input : List (String × Json)) (h : projectFillCond scope tool input = false) :
    autoFillProject scope tool input = input := by
  unfold autoFillProject
  cases hs : scopeProject scope <;> simp [h]

theorem autoFillConfig_of_true (scope : Option ScopeOptions) (tool : DopplerTool)
    (input : List (String × Json)) (c : String) (hc : scopeConfig scope = some c)
    (h : configFillCond scope tool input = true) :
    autoFillConfig scope tool input = setKey input "config" (.str c) := by
  unfold autoFillConfig
  rw [hc]
  simp [h]

theorem autoFillProject_of_true (scope : Option ScopeOptions) (tool : DopplerTool)
    (input : List (String × Json)) (p : String) (hp : scopeProject scope = some p)
    (h : projectFillCond scope tool input = true) :
    autoFillProject scope tool input = setKey input "project" (.str p) := by
  unfold autoFillProject
  rw [hp]
  simp [h]

theorem lookupJ_autoFillConfig_ne (scope : Option ScopeOptions) (tool : DopplerTool)
    (input : List (String × Json)) (k : String) (h : k ≠ "config") :
    lookupJ (autoFillConfig scope tool input) k = lookupJ input k := by
  unfold autoFillConfig
  cases hs : scopeConfig scope with
  | none => rfl
  | some c =>
    by_cases hcond : configFillCond scope tool input = true
    · simp only [hcond, if_true]
      exact lookupJ_setKey_other input "config" k (.str c) h
    · simp only [if_neg hcond]

theorem lookupJ_autoFillProject_ne (scope : Option ScopeOptions) (tool : DopplerTool)
    (input : List (String × Json)) (k : String) (h : k ≠ "project") :
    lookupJ (autoFillProject scope tool input) k = lookupJ input k := by
  unfold autoFillProject
  cases hs : scopeProject scope with
  | none => rfl
  | some p =>
    by_cases hcond : projectFillCond scope tool input = true
    · simp only [hcond, if_true]
      exact lookupJ_setKey_other input "project" k (.str p) h
    · simp only [if_neg hcond]

theorem executeToolRequest_request (scope : Option ScopeOptions) (tool : DopplerTool)
    (input : List (String × Json))
    (h1 : projectViolation scope input = none) (h2 : configViolation scope input = none) :
    executeToolRequest scope tool input =
      .request (buildRequest tool (autoFillProject scope tool (autoFillConfig scope tool input))) := by
  unfold executeToolRequest
  rw [h1, h2]

theorem mem_queryKV (tool : DopplerTool) (input : List (String × Json)) (n : String)
    (pp : Parameter) (v : Json)
    (hf : tool.parameters.find? (fun q => q.name = n) = some pp)
    (hl : pp.loc = .query) (hv : lookupJ input n = some v) :
    (n, v) ∈ queryKV tool input := by
  have hmem := List.mem_of_find?_eq_some hf
  have hname : pp.name = n := by simpa using List.find?_some hf
  unfold queryKV
  rw [List.mem_filterMap]
  refine ⟨pp, hmem, ?_⟩
  rw [hl, if_pos rfl, hname, hv]
  rfl

theorem queryKV_mem_lookup (tool : DopplerTool) (input : List (String × Json))
    (n : String) (v : Json) (h : (n, v) ∈ queryKV tool input) :
    lookupJ input n = some v := by
  unfold queryKV at h
  rw [List.mem_filterMap] at h
  obtain ⟨q, hq, he⟩ := h
  by_cases hloc : q.loc = .query
  · rw [if_pos hloc] at he
    cases hv : lookupJ input q.name with
    | none => rw [hv] at he; cases he
    | some w =>
      rw [hv] at he
      simp only [Option.map_some'] at he
      injection he with he
      have h1 : q.name = n := congrArg Prod.fst he
      have h2 : w = v := congrArg Prod.snd he
      rw [← h1, hv, h2]
  · rw [if_neg hloc] at he
    cases he

theorem infix_data_left (t : List Char) (a b : String) (h : t <:+: a.data) :
    t <:+: (a ++ b).data := by
  rw [String.data_append]
  obtain ⟨s, u, hs⟩ := h
  exact ⟨s, u ++ b.data, by rw [← hs]; simp⟩

theorem projectViolation_eq_some (scope : Option ScopeOptions)
    (input : List (String × Json)) (p : String) (v : Json)
    (hp : scopeProject scope = some p) (hv : lookupJ input "project" = some v)
    (ht : truthy v = true) (hne : jsStrictEq v (.str p) = false) :
    projectViolation scope input =
      some (projectViolationMsg (scope.bind (·.projectSource)) p (jsDisplay v)) := by
  unfold projectViolation
  rw [hp, hv]
  simp [ht, hne]

theorem configViolation_eq_some (scope : Option ScopeOptions)
    (input : List (String × Json)) (c : String) (v : Json)
    (hc : scopeConfig scope = some c) (hv : lookupJ input "config" = some v)
    (ht : truthy v = true) (hne : jsStrictEq v (.str c) = false) :
    configViolation scope input =
      some (configViolationMsg (scope.bind (·.configSource)) c (jsDisplay v)) := by
  unfold configViolation
  rw [hc, hv]
  simp [ht, hne]

/-- C2 (amended): a configured (non-empty) project scope plus an input
that supplies a TRUTHY project value not strictly equal to the
configured one always fails with a `ScopeViolation` — never a generic
error — whose kind and message survive the `execute` wrapper unchanged,
and whose message contains "configured for project" for a cli origin
and "token only has access to project" for a token origin; the same
holds for `config` against the configured config.  (The claim as
written, quantifying over EVERY differing supplied value, fails on
falsy values such as the empty string — see the counterexample and
C10.) -/
theorem C2_scope_violation :
    (∀ (scope : Option ScopeOptions) (tool : DopplerTool)
       (input : List (String × Json)) (p : String) (v : Json),
      scopeProject scope = some p →
      lookupJ input "project" = some v →
      truthy v = true → jsStrictEq v (.str p) = false →
      ∃ msg, executeToolRequest scope tool input = .scopeViolation msg ∧
        (∀ http, mcpExecute scope tool input http = .error (.scopeViolation msg)) ∧
        msg = projectViolationMsg (scope.bind (·.projectSource)) p (jsDisplay v) ∧
        (scope.bind (·.projectSource) = some .cli →
          "configured for project".data <:+: msg.data) ∧
        (scope.bind (·.projectSource) = some .token →
          "token only has access to project".data <:+: msg.data)) ∧
    (∀ (scope : Option ScopeOptions) (tool : DopplerTool)
       (input : List (String × Json)) (c : String) (v : Json),
      scopeConfig scope = some c →
      projectViolation scope input = none →
      lookupJ input "config" = some v →
      truthy v = true → jsStrictEq v (.str c) = false →
      ∃ msg, executeToolRequest scope tool input = .scopeViolation msg ∧
        (∀ http, mcpExecute scope tool input http = .error (.scopeViolation msg)) ∧
        msg = configViolationMsg (scope.bind (·.configSource)) c (jsDisplay v) ∧
        (scope.bind (·.configSource) = some .cli →
          "configured for config".data <:+: msg.data) ∧
        (scope.bind (·.configSource) = some .token →
          "token only has access to config".data <:+: msg.data)) := by
  constructor
  · intro scope tool input p v hp hv ht hne
    refine ⟨projectViolationMsg (scope.bind (·.projectSource)) p (jsDisplay v), ?_, ?_, rfl, ?_, ?_⟩
    · unfold executeToolRequest
      rw [projectViolation_eq_some scope input p v hp hv ht hne]
    · intro http
      unfold mcpExecute executeToolRequest
      rw [projectViolation_eq_some scope input p v hp hv ht hne]
    · intro hsrc
      rw [hsrc]
      unfold projectViolationMsg
      apply infix_data_left
      apply infix_data_left
      apply infix_data_left
      apply infix_data_left
      apply infix_data_left
      decide
    · intro hsrc
      rw [hsrc]
      unfold projectViolationMsg
      apply infix_data_left
      apply infix_data_left
      apply infix_data_left
      apply infix_data_left
      decide
  · intro scope tool input c v hc hpv hv ht hne
    refine ⟨configViolationMsg (scope.bind (·.configSource)) c (jsDisplay v), ?_, ?_, rfl, ?_, ?_⟩
    · unfold executeToolRequest
      rw [hpv, configViolation_eq_some scope input c v hc hv ht hne]
    · intro http
      unfold mcpExecute executeToolRequest
      rw [hpv, configViolation_eq_some scope input c v hc hv ht hne]
    · intro hsrc
      rw [hsrc]
      unfold configViolationMsg
      apply infix_data_left
      apply infix_data_left
      apply infix_data_left
      apply infix_data_left
      apply infix_data_left
      decide
    · intro hsrc
      rw [hsrc]
      unfold configViolationMsg
      apply infix_data_left
      apply infix_data_left
      apply infix_data_left
      apply infix_data_left
      decide

/-- C10: the scope guard tests the caller-supplied project/config by JS
truthiness, not key presence: an empty-string value never triggers a
`ScopeViolation` even though it differs from the configured value, and
when the tool declares the parameter the empty string is overwritten by
the configured scope value before the request is partitioned. -/
theorem C10_truthiness_guard :
    (∀ (scope : Option ScopeOptions) (tool : DopplerTool) (input : List (String × Json))
       (p : String) (pp : Parameter),
      scopeProject scope = some p →
      lookupJ input "project" = some (.str "") →
      configViolation scope input = none →
      tool.parameters.find? (fun q => q.name = "project") = some pp →
      pp.loc = .query →
      ∃ req, executeToolRequest scope tool input = .request req ∧
        ("project", .str p) ∈ req.queryParams ∧
        (∀ v, ("project", v) ∈ req.queryParams → v = .str p)) ∧
    (∀ (scope : Option ScopeOptions) (tool : DopplerTool) (input : List (String × Json))
       (c : String) (cp : Parameter),
      scopeConfig scope = some c →
      lookupJ input "config" = some (.str "") →
      projectViolation scope input = none →
      tool.parameters.find? (fun q => q.name = "config") = some cp →
      cp.loc = .query →
      ∃ req, executeToolRequest scope tool input = .request req ∧
        ("config", .str c) ∈ req.queryParams ∧
        (∀ v, ("config", v) ∈ req.queryParams → v = .str c)) := by
  constructor
  · intro scope tool input p pp hp hv hcv hf hloc
    have hpv : projectViolation scope input = none :=
      projectViolation_none_of_cond scope input (.str "") hv (fun _ _ => rfl)
    have hl1 : lookupJ (autoFillConfig scope tool input) "project" = some (.str "") := by
      rw [lookupJ_autoFillConfig_ne scope tool input "project" (by decide), hv]
    have hcond : projectFillCond scope tool (autoFillConfig scope tool input) = true := by
      unfold projectFillCond
      rw [hp, hf, hl1]
      rfl
    have hfill : autoFillProject scope tool (autoFillConfig scope tool input) =
        setKey (autoFillConfig scope tool input) "project" (.str p) :=
      autoFillProject_of_true scope tool _ p hp hcond
    have hl2 : lookupJ (setKey (autoFillConfig scope tool input) "project" (.str p)) "project" =
        some (.str p) := lookupJ_setKey_self _ _ _
    refine ⟨_, executeToolRequest_request scope tool input hpv hcv, ?_, ?_⟩
    · show ("project", Json.str p) ∈ queryKV tool _
      rw [hfill]
      exact mem_queryKV tool _ "project" pp (.str p) hf hloc hl2
    · intro v hvmem
      have := queryKV_mem_lookup tool _ "project" v hvmem
      rw [hfill, hl2] at this
      injection this with this
      exact this.symm
  · intro scope tool input c cp hc hv hpv hf hloc
    have hcv : configViolation scope input = none :=
      configViolation_none_of_cond scope input (.str "") hv (fun _ _ => rfl)
    have hcond : configFillCond scope tool input = true := by
      unfold configFillCond
      rw [hc, hf, hv]
      rfl
    have hfill : autoFillConfig scope tool input = setKey input "config" (.str c) :=
      autoFillConfig_of_true scope tool input c hc hcond
    have hl2 : lookupJ (autoFillProject scope tool (autoFillConfig scope tool input)) "config" =
        some (.str c) := by
      rw [lookupJ_autoFillProject_ne scope tool _ "config" (by decide), hfill]
      exact lookupJ_setKey_self _ _ _
    refine ⟨_, executeToolRequest_request scope tool input hpv hcv, ?_, ?_⟩
    · exact mem_queryKV tool _ "config" cp (.str c) hf hloc hl2
    · intro v hvmem
      have := queryKV_mem_lookup tool _ "config" v hvmem
      rw [hl2] at this
      injection this with this
      exact this.symm

/-- C6: with a configured project and a tool declaring a (query-located)
`project` parameter, an invocation without a `project` key is auto-filled
from the scope — the built request's query parameters carry the
configured project — and supplying the configured value explicitly
produces exactly the same built request without any error; and the
analogous auto-fill holds for `config`. -/
theorem C6_scope_auto_fill :
    (∀ (scope : Option ScopeOptions) (tool : DopplerTool) (input : List (String × Json))
       (p : String) (pp : Parameter),
      scopeProject scope = some p →
      tool.parameters.find? (fun q => q.name = "project") = some pp →
      pp.loc = .query →
      lookupJ input "project" = none →
      configViolation scope input = none →
      configFillCond scope tool input = false →
      executeToolRequest scope tool input =
          .request (buildRequest tool (input ++ [("project", .str p)])) ∧
        ("project", .str p) ∈ (buildRequest tool (input ++ [("project", .str p)])).queryParams ∧
        executeToolRequest scope tool (input ++ [("project", .str p)]) =
          .request (buildRequest tool (input ++ [("project", .str p)]))) ∧
    (∀ (scope : Option ScopeOptions) (tool : DopplerTool) (input : List (String × Json))
       (c : String) (cp : Parameter),
      scopeConfig scope = some c →
      tool.parameters.find? (fun q => q.name = "config") = some cp →
      cp.loc = .query →
      lookupJ input "config" = none →
      projectViolation scope input = none →
      projectFillCond scope tool (input ++ [("config", .str c)]) = false →
      executeToolRequest scope tool input =
          .request (buildRequest tool (input ++ [("config", .str c)])) ∧
        ("config", .str c) ∈ (buildRequest tool (input ++ [("config", .str c)])).queryParams ∧
        executeToolRequest scope tool (input ++ [("config", .str c)]) =
          .request (buildRequest tool (input ++ [("config", .str c)]))) := by
  constructor
  · intro scope tool input p pp hp hf hloc hnone hcv hcf
    have hne : p ≠ "" := scopeProject_ne_empty scope p hp
    have hpv : projectViolation scope input = none :=
      projectViolation_none_of_lookup_none scope input hnone
    have hacf : autoFillConfig scope tool input = input :=
      autoFillConfig_of_false scope tool input hcf
    have hcond : projectFillCond scope tool input = true := by
      unfold projectFillCond
      rw [hp, hf, hnone]
      rfl
    have hfill : autoFillProject scope tool input = input ++ [("project", .str p)] := by
      rw [autoFillProject_of_true scope tool input p hp hcond,
        setKey_of_absent input "project" (.str p) hnone]
    have hv2 : lookupJ (input ++ [("project", .str p)]) "project" = some (.str p) :=
      lookupJ_append_self input "project" (.str p) hnone
    refine ⟨?_, ?_, ?_⟩
    · rw [executeToolRequest_request scope tool input hpv hcv, hacf, hfill]
    · exact mem_queryKV tool _ "project" pp (.str p) hf hloc hv2
    · have hpv2 : projectViolation scope (input ++ [("project", .str p)]) = none := by
        apply projectViolation_none_of_cond scope _ (.str p) hv2
        intro p' hp'
        rw [hp] at hp'
        injection hp' with hp'
        subst hp'
        simp [jsStrictEq]
      have hlc : lookupJ (input ++ [("project", .str p)]) "config" = lookupJ input "config" :=
        lookupJ_append_of_ne input "project" "config" (.str p) (by decide)
      have hcv2 : configViolation scope (input ++ [("project", .str p)]) = none := by
        rw [configViolation_congr scope input _ hlc, hcv]
      have hcf2 : configFillCond scope tool (input ++ [("project", .str p)]) = false := by
        rw [configFillCond_congr scope tool input _ hlc, hcf]
      have hacf2 : autoFillConfig scope tool (input ++ [("project", .str p)]) =
          input ++ [("project", .str p)] := autoFillConfig_of_false scope tool _ hcf2
      have hpf2 : projectFillCond scope tool (input ++ [("project", .str p)]) = false := by
        unfold projectFillCond
        rw [hv2]
        simp [truthy, truthyOpt, hne]
      have hafp2 : autoFillProject scope tool (input ++ [("project", .str p)]) =
          input ++ [("project", .str p)] := autoFillProject_of_false scope tool _ hpf2
      rw [executeToolRequest_request scope tool _ hpv2 hcv2, hacf2, hafp2]
  · intro scope tool input c cp hc hf hloc hnone hpv hpf
    have hne : c ≠ "" := scopeConfig_ne_empty scope c hc
    have hcv : configViolation scope input = none :=
      configViolation_none_of_lookup_none scope input hnone
    have hcond : configFillCond scope tool input = true := by
      unfold configFillCond
      rw [hc, hf, hnone]
      rfl
    have hfill : autoFillConfig scope tool input = input ++ [("config", .str c)] := by
      rw [autoFillConfig_of_true scope tool input c hc hcond,
        setKey_of_absent input "config" (.str c) hnone]
    have hafp : autoFillProject scope tool (input ++ [("config", .str c)]) =
        input ++ [("config", .str c)] := autoFillProject_of_false scope tool _ hpf
    have hv2 : lookupJ (input ++ [("config", .str c)]) "config" = some (.str c) :=
      lookupJ_append_self input "config" (.str c) hnone
    refine ⟨?_, ?_, ?_⟩
    · rw [executeToolRequest_request scope tool input hpv hcv, hfill, hafp]
    · exact mem_queryKV tool _ "config" cp (.str c) hf hloc hv2
    · have hlp : lookupJ (input ++ [("config", .str c)]) "project" = lookupJ input "project" :=
        lookupJ_append_of_ne input "config" "project" (.str c) (by decide)
      have hpv2 : projectViolation scope (input ++ [("config", .str c)]) = none := by
        rw [projectViolation_congr scope input _ hlp, hpv]
      have hcv2 : configViolation scope (input ++ [("config", .str c)]) = none := by
        apply configViolation_none_of_cond scope _ (.str c) hv2
        intro c' hc'
        rw [hc] at hc'
        injection hc' with hc'
        subst hc'
        simp [jsStrictEq]
      have hcf2 : configFillCond scope tool (input ++ [("config", .str c)]) = false := by
        unfold configFillCond
        rw [hv2]
        simp [truthy, truthyOpt, hne]
      have hacf2 : autoFillConfig scope tool (input ++ [("config", .str c)]) =
          input ++ [("config", .str c)] := autoFillConfig_of_false scope tool _ hcf2
      rw [executeToolRequest_request scope tool _ hpv2 hcv2, hacf2, hafp]

/-- C7: when a tool has an `application/json` request body, every input
entry not claimed as a (present) path or query parameter is copied
verbatim into the body payload, even when its key is absent from the
declared body schema; the body is attached to the outgoing HTTP request
only for POST/PUT/PATCH/DELETE (never GET), and an empty body map is
passed as absent rather than as an empty object. -/
theorem C7_body_partition :
    (∀ (tool : DopplerTool) (input : List (String × Json)),
      executeToolRequest none tool input = .request (buildRequest tool input)) ∧
    (∀ (tool : DopplerTool) (input : List (String × Json)) (rb : RequestBody)
       (sch : SchemaObject) (rest : List (String × SchemaObject)) (kv : String × Json),
      tool.requestBody = some rb → rb.content = ("application/json", sch) :: rest →
      kv ∈ input →
      ((pathKV tool input).map (·.1)).contains kv.1 = false →
      ((queryKV tool input).map (·.1)).contains kv.1 = false →
      ∃ bd, (buildRequest tool input).body = some bd ∧ kv ∈ bd) ∧
    (∀ (tool : DopplerTool) (input : List (String × Json)),
      bodyKV tool input = [] → (buildRequest tool input).body = none) ∧
    (∀ b, wireBody "GET" b = none) ∧
    (∀ (m : String) (b : Option (List (String × Json))),
      (wireBody m b).isSome = true → m ∈ ["POST", "PUT", "PATCH", "DELETE"]) ∧
    (∀ (m : String) (bd : List (String × Json)),
      m ∈ (["POST", "PUT", "PATCH", "DELETE"] : List String) →
      wireBody m (some bd) = some bd) := by
  refine ⟨?_, ?_, ?_, ?_, ?_, ?_⟩
  · intro tool input
    rfl
  · intro tool input rb sch rest kv hrb hct hkv hp hq
    have hbody : bodyKV tool input = input.filter (fun kv =>
        !((pathKV tool input).map (·.1)).contains kv.1 &&
        !((queryKV tool input).map (·.1)).contains kv.1) := by
      unfold bodyKV
      simp [hrb, hct]
    have hkv' : kv ∈ bodyKV tool input := by
      rw [hbody]
      exact List.mem_filter.mpr ⟨hkv, by rw [hp, hq]; rfl⟩
    have hne : (bodyKV tool input).isEmpty = false := by
      cases hb : bodyKV tool input with
      | nil => rw [hb] at hkv'; cases hkv'
      | cons a l => rfl
    refine ⟨bodyKV tool input, ?_, hkv'⟩
    show (if (bodyKV tool input).isEmpty then none else some (bodyKV tool input)) =
      some (bodyKV tool input)
    rw [hne]
    rfl
  · intro tool input h
    show (if (bodyKV tool input).isEmpty then none else some (bodyKV tool input)) = none
    rw [h]
    rfl
  · intro b
    cases b <;> rfl
  · intro m b h
    unfold wireBody at h
    by_cases hc : (b.isSome && ["POST", "PUT", "PATCH", "DELETE"].contains m) = true
    · have := (Bool.and_eq_true _ _).mp hc
      simpa using this.2
    · rw [if_neg hc] at h
      cases h
  · intro m bd hm
    unfold wireBody
    rw [if_pos]
    simp [hm]

/-- C2 (counterexample): an input that supplies `project: ""` — a value
different from the configured project `"allowed"` — is not rejected
with a `ScopeViolation`: the falsy empty string bypasses the guard and
is overwritten by the auto-fill before the request is built. -/
theorem C2_counterexample :
    executeToolRequest cliProjectScope projectQueryTool [("project", .str "")] =
      .request (buildRequest projectQueryTool [("project", .str "allowed")]) ∧
    ("" : String) ≠ "allowed" := ⟨rfl, by decide⟩

theorem C2_scope_violation_witness :
    (∃ msg, executeToolRequest cliProjectScope projectQueryTool [("project", .str "other")] =
        .scopeViolation msg ∧
      (∀ http, mcpExecute cliProjectScope projectQueryTool [("project", .str "other")] http =
        .error (.scopeViolation msg)) ∧
      msg = projectViolationMsg (cliProjectScope.bind (·.projectSource)) "allowed"
        (jsDisplay (.str "other")) ∧
      (cliProjectScope.bind (·.projectSource) = some .cli →
        "configured for project".data <:+: msg.data) ∧
      (cliProjectScope.bind (·.projectSource) = some .token →
        "token only has access to project".data <:+: msg.data)) ∧
    (∃ msg, executeToolRequest tokenConfigScope projectConfigQueryTool [("config", .str "dev")] =
        .scopeViolation msg ∧
      (∀ http, mcpExecute tokenConfigScope projectConfigQueryTool [("config", .str "dev")] http =
        .error (.scopeViolation msg)) ∧
      msg = configViolationMsg (tokenConfigScope.bind (·.configSource)) "prd"
        (jsDisplay (.str "dev")) ∧
      (tokenConfigScope.bind (·.configSource) = some .cli →
        "configured for config".data <:+: msg.data) ∧
      (tokenConfigScope.bind (·.configSource) = some .token →
        "token only has access to config".data <:+: msg.data)) :=
  ⟨C2_scope_violation.1 cliProjectScope projectQueryTool [("project", .str "other")] "allowed"
      (.str "other") rfl rfl rfl rfl,
   C2_scope_violation.2 tokenConfigScope projectConfigQueryTool [("config", .str "dev")] "prd"
      (.str "dev") rfl rfl rfl rfl rfl⟩

theorem C10_truthiness_guard_witness :
    (∃ req, executeToolRequest p1Scope projectQueryTool [("project", .str "")] = .request req ∧
      ("project", .str "p1") ∈ req.queryParams ∧
      (∀ v, ("project", v) ∈ req.queryParams → v = .str "p1")) ∧
    (∃ req, executeToolRequest c1Scope projectConfigQueryTool [("config", .str "")] =
        .request req ∧
      ("config", .str "c1") ∈ req.queryParams ∧
      (∀ v, ("config", v) ∈ req.queryParams → v = .str "c1")) :=
  ⟨C10_truthiness_guard.1 p1Scope projectQueryTool [("project", .str "")] "p1" _ rfl rfl rfl rfl rfl,
   C10_truthiness_guard.2 c1Scope projectConfigQueryTool [("config", .str "")] "c1" _ rfl rfl rfl rfl rfl⟩

theorem C6_scope_auto_fill_witness :
    (executeToolRequest p1Scope projectQueryTool [] =
        .request (buildRequest projectQueryTool ([] ++ [("project", .str "p1")])) ∧
      ("project", .str "p1") ∈
        (buildRequest projectQueryTool ([] ++ [("project", .str "p1")])).queryParams ∧
      executeToolRequest p1Scope projectQueryTool ([] ++ [("project", .str "p1")]) =
        .request (buildRequest projectQueryTool ([] ++ [("project", .str "p1")]))) ∧
    (executeToolRequest c1Scope projectConfigQueryTool [] =
        .request (buildRequest projectConfigQueryTool ([] ++ [("config", .str "c1")])) ∧
      ("config", .str "c1") ∈
        (buildRequest projectConfigQueryTool ([] ++ [("config", .str "c1")])).queryParams ∧
      executeToolRequest c1Scope projectConfigQueryTool ([] ++ [("config", .str "c1")]) =
        .request (buildRequest projectConfigQueryTool ([] ++ [("config", .str "c1")]))) :=
  ⟨C6_scope_auto_fill.1 p1Scope projectQueryTool [] "p1" _ rfl rfl rfl rfl rfl rfl,
   C6_scope_auto_fill.2 c1Scope projectConfigQueryTool [] "c1" _ rfl rfl rfl rfl rfl rfl⟩

theorem C7_body_partition_witness :
    (∃ bd, (buildRequest bodyTool
        [("project", .str "p"), ("config", .str "cfg"), ("secrets", .obj [])]).body = some bd ∧
      ("secrets", Json.obj []) ∈ bd) ∧
    (buildRequest projectQueryTool []).body = none ∧
    "POST" ∈ (["POST", "PUT", "PATCH", "DELETE"] : List String) ∧
    wireBody "POST" (some [("k", Json.null)]) = some [("k", Json.null)] :=
  ⟨C7_body_partition.2.1 bodyTool
      [("project", .str "p"), ("config", .str "cfg"), ("secrets", .obj [])] _ _ _
      ("secrets", .obj []) rfl rfl (by simp) rfl rfl,
   C7_body_partition.2.2.1 projectQueryTool [] rfl,
   C7_body_partition.2.2.2.2.1 "POST" (some [("k", Json.null)]) rfl,
   C7_body_partition.2.2.2.2.2 "POST" [("k", Json.null)] (by decide)⟩


theorem validateBody_object (rec : SchemaObject → Json → Option Json) (s : SchemaObject)
    (ps : List (String × SchemaObject)) (kvs : List (String × Json))
    (he : s.enum = none) (ht : s.type = some "object") (hp : s.properties = some ps) :
    validateBody rec s (.obj kvs) =
      (validateFields rec (ps.map (fun p => (p.1, p.2, (s.required.getD []).contains p.1))) kvs).map
        (fun fs => Json.obj (fs ++ kvs.filter (fun kv => !(ps.map (·.1)).contains kv.1))) := by
  unfold validateBody
  rw [he, ht]
  simp [hp]

theorem validateFields_append_undeclared (f : SchemaObject → Json → Option Json)
    (fields : List (String × SchemaObject × Bool)) (kvs : List (String × Json))
    (c : String) (w : Json) (h : ∀ fld ∈ fields, fld.1 ≠ c) :
    validateFields f fields (kvs ++ [(c, w)]) = validateFields f fields kvs := by
  induction fields with
  | nil => rfl
  | cons fld rest ih =>
    obtain ⟨k, sch, req⟩ := fld
    have hk : k ≠ c := h (k, sch, req) (List.mem_cons_self _ _)
    have ihh := ih (fun fld hm => h fld (List.mem_cons_of_mem _ hm))
    unfold validateFields
    rw [lookupJ_append_of_ne kvs c k w hk, ihh]

/-- C1: object validators pass unknown keys through at every nesting
depth.  Conjuncts 1–2 are fully general: at ANY object node of ANY
schema (hence at any recursion depth, including object schemas inside
array items, which apply the same compiled validator element-wise),
an accepted input's undeclared keys appear unchanged in the normalized
output, and adding a further undeclared key never turns acceptance into
rejection — the new key rides along unchanged.  Conjuncts 3–6 are the
claim's concrete example at nested, array-item and top-level
(`createInputSchema`) positions. -/
theorem C1_passthrough :
    (∀ (fuel : Nat) (s : SchemaObject) (ps : List (String × SchemaObject))
       (kvs : List (String × Json)) (out : Json) (kv : String × Json),
      s.enum = none → s.type = some "object" → s.properties = some ps →
      validate fuel s (.obj kvs) = some out →
      kv ∈ kvs → (ps.map (·.1)).contains kv.1 = false →
      ∃ fields, out = .obj fields ∧ kv ∈ fields) ∧
    (∀ (fuel : Nat) (s : SchemaObject) (ps : List (String × SchemaObject))
       (kvs : List (String × Json)) (out : Json) (c : String) (w : Json),
      s.enum = none → s.type = some "object" → s.properties = some ps →
      validate fuel s (.obj kvs) = some out →
      (ps.map (·.1)).contains c = false →
      ∃ fields, out = .obj fields ∧
        validate fuel s (.obj (kvs ++ [(c, w)])) = some (.obj (fields ++ [(c, w)]))) ∧
    validate 2 secretsInnerSchema (.obj [("A", .str "1"), ("B", .str "2")]) =
      some (.obj [("A", .str "1"), ("B", .str "2")]) ∧
    validate 3 secretsOuterSchema secretsInput = some secretsInput ∧
    validate 3 arrayOfSecretsSchema (.arr [.obj [("A", .str "1"), ("B", .str "2")]]) =
      some (.arr [.obj [("A", .str "1"), ("B", .str "2")]]) ∧
    validateToolInput 3 (createInputSchemaFields secretsOp) secretsInput = some secretsInput := by
  refine ⟨?_, ?_, rfl, rfl, rfl, rfl⟩
  · intro fuel s ps kvs out kv he ht hp hval hkv hcont
    cases fuel with
    | zero => cases hval
    | succ n =>
      rw [validate_succ, validateBody_object _ s ps kvs he ht hp] at hval
      cases hvf : validateFields (fun sh vv => validate n sh vv)
          (ps.map (fun p => (p.1, p.2, (s.required.getD []).contains p.1))) kvs with
      | none => rw [hvf] at hval; cases hval
      | some fs =>
        rw [hvf] at hval
        simp only [Option.map_some'] at hval
        injection hval with hval
        refine ⟨fs ++ kvs.filter (fun kv => !(ps.map (·.1)).contains kv.1), hval.symm, ?_⟩
        apply List.mem_append_right
        exact List.mem_filter.mpr ⟨hkv, by rw [hcont]; rfl⟩
  · intro fuel s ps kvs out c w he ht hp hval hcont
    cases fuel with
    | zero => cases hval
    | succ n =>
      have hnec : ∀ fld ∈ ps.map (fun p => (p.1, p.2, (s.required.getD []).contains p.1)),
          fld.1 ≠ c := by
        intro fld hfld heq
        obtain ⟨p, hpmem, rfl⟩ := List.mem_map.mp hfld
        have : c ∈ ps.map (·.1) := List.mem_map.mpr ⟨p, hpmem, heq⟩
        have hnc : c ∉ ps.map (·.1) := by simpa using hcont
        exact hnc this
      rw [validate_succ, validateBody_object _ s ps kvs he ht hp] at hval
      cases hvf : validateFields (fun sh vv => validate n sh vv)
          (ps.map (fun p => (p.1, p.2, (s.required.getD []).contains p.1))) kvs with
      | none => rw [hvf] at hval; cases hval
      | some fs =>
        rw [hvf] at hval
        simp only [Option.map_some'] at hval
        injection hval with hval
        refine ⟨fs ++ kvs.filter (fun kv => !(ps.map (·.1)).contains kv.1), hval.symm, ?_⟩
        rw [validate_succ, validateBody_object _ s ps _ he ht hp,
          validateFields_append_undeclared _ _ kvs c w hnec, hvf]
        simp only [Option.map_some']
        congr 1
        rw [List.filter_append]
        have hfw : List.filter (fun kv => !(ps.map (·.1)).contains kv.1) [(c, w)] = [(c, w)] := by
          have hnc : c ∉ ps.map (·.1) := by simpa using hcont
          simp [List.filter, hnc]
        rw [hfw, List.append_assoc]

theorem C1_passthrough_witness :
    (∃ fields, (Json.obj [("A", Json.str "1"), ("B", Json.str "2")]) = .obj fields ∧
      ("A", Json.str "1") ∈ fields) ∧
    (∃ fields, (Json.obj [("A", Json.str "1")]) = .obj fields ∧
      validate 2 secretsInnerSchema (.obj ([("A", .str "1")] ++ [("B", .str "2")])) =
        some (.obj (fields ++ [("B", .str "2")]))) :=
  ⟨C1_passthrough.1 2 secretsInnerSchema [("EXAMPLE_KEY", strSchema)]
      [("A", .str "1"), ("B", .str "2")] (.obj [("A", .str "1"), ("B", .str "2")])
      ("A", .str "1") rfl rfl rfl rfl (by simp) rfl,
   C1_passthrough.2.1 2 secretsInnerSchema [("EXAMPLE_KEY", strSchema)] [("A", .str "1")]
      (.obj [("A", .str "1")]) "B" (.str "2") rfl rfl rfl rfl rfl⟩


theorem collapseUS_head : ∀ (l : List Char) (c : Char), (collapseUS (c :: l)).head? = some c
  | [], c => rfl
  | d :: rest, c => by
    unfold collapseUS
    by_cases h : (c = '_' && d = '_') = true
    · rw [if_pos h]
      have h' : c = '_' ∧ d = '_' := by simpa using h
      rw [collapseUS_head rest d, h'.2, h'.1]
    · rw [if_neg h]
      rfl

theorem noDoubleUS_cons_of (c : Char) (l : List Char) (hl : noDoubleUS l = true)
    (hh : ∀ h, l.head? = some h → (c = '_' && h = '_') = false) :
    noDoubleUS (c :: l) = true := by
  cases l with
  | nil => rfl
  | cons d rest =>
    unfold noDoubleUS
    rw [hh d rfl, hl]
    rfl

theorem noDoubleUS_collapseUS : ∀ l : List Char, noDoubleUS (collapseUS l) = true
  | [] => rfl
  | [c] => rfl
  | c1 :: c2 :: rest => by
    unfold collapseUS
    by_cases h : (c1 = '_' && c2 = '_') = true
    · rw [if_pos h]
      exact noDoubleUS_collapseUS (c2 :: rest)
    · rw [if_neg h]
      apply noDoubleUS_cons_of c1 _ (noDoubleUS_collapseUS (c2 :: rest))
      intro x hx
      rw [collapseUS_head rest c2] at hx
      injection hx with hx
      rw [← hx]
      exact Bool.eq_false_iff.mpr h

theorem noDoubleUS_tail (c : Char) (l : List Char) (h : noDoubleUS (c :: l) = true) :
    noDoubleUS l = true := by
  cases l with
  | nil => rfl
  | cons d rest =>
    unfold noDoubleUS at h
    rw [Bool.and_eq_true] at h
    exact h.2

theorem noDoubleUS_take : ∀ (n : Nat) (l : List Char), noDoubleUS l = true →
    noDoubleUS (l.take n) = true
  | 0, _, _ => rfl
  | _ + 1, [], _ => rfl
  | _ + 1, [c], _ => by simp [noDoubleUS, List.take]
  | n + 1, c1 :: c2 :: rest, h => by
    have h' : (!(decide (c1 = '_') && decide (c2 = '_'))) = true ∧
        noDoubleUS (c2 :: rest) = true := by
      unfold noDoubleUS at h
      rw [Bool.and_eq_true] at h
      exact h
    rw [List.take_succ_cons]
    apply noDoubleUS_cons_of c1 _ (noDoubleUS_take n (c2 :: rest) h'.2)
    intro x hx
    cases n with
    | zero => cases hx
    | succ m =>
      rw [List.take_succ_cons] at hx
      injection hx with hx
      rw [← hx]
      have := h'.1
      simp only [Bool.not_eq_eq_eq_not, Bool.not_true] at this
      exact this

theorem noDoubleUS_dropLast (l : List Char) (h : noDoubleUS l = true) :
    noDoubleUS l.dropLast = true := by
  rw [List.dropLast_eq_take]
  exact noDoubleUS_take _ l h

theorem getLast?_cons_ne_nil (c : Char) (l : List Char) (h : l ≠ []) :
    (c :: l).getLast? = l.getLast? := by
  cases l with
  | nil => exact absurd rfl h
  | cons d rest => exact List.getLast?_cons_cons

theorem getLast?_dropLast_ne : ∀ l : List Char, noDoubleUS l = true →
    l.getLast? = some '_' → l.dropLast.getLast? ≠ some '_'
  | [], _, h => by cases h
  | [c], _, _ => by simp
  | [c1, c2], hnd, hlast => by
    have hg : ([c1, c2] : List Char).getLast? = some c2 := by simp
    rw [hg] at hlast
    injection hlast with h2
    have h1 : c1 ≠ '_' := by
      intro hc1
      simp [noDoubleUS, hc1, h2] at hnd
    intro hcon
    simp at hcon
    exact h1 hcon
  | c1 :: c2 :: c3 :: rest, hnd, hlast => by
    have htail : noDoubleUS (c2 :: c3 :: rest) = true := noDoubleUS_tail c1 _ hnd
    have hlast' : (c2 :: c3 :: rest).getLast? = some '_' := by
      rw [← List.getLast?_cons_cons (a := c1)]
      exact hlast
    have ih := getLast?_dropLast_ne (c2 :: c3 :: rest) htail hlast'
    rw [List.dropLast_cons₂]
    rw [getLast?_cons_ne_nil c1 _ (by rw [List.dropLast_cons₂]; exact List.cons_ne_nil _ _)]
    exact ih

theorem stripTrailingUS_getLast?_ne (l : List Char) (h : noDoubleUS l = true) :
    (stripTrailingUS l).getLast? ≠ some '_' := by
  unfold stripTrailingUS
  by_cases hl : l.getLast? = some '_'
  · rw [if_pos hl]
    exact getLast?_dropLast_ne l h hl
  · rw [if_neg hl]
    exact hl

theorem noDoubleUS_stripTrailingUS (l : List Char) (h : noDoubleUS l = true) :
    noDoubleUS (stripTrailingUS l) = true := by
  unfold stripTrailingUS
  split
  · exact noDoubleUS_dropLast l h
  · exact h

theorem stripTrailingUS_length_le (l : List Char) :
    (stripTrailingUS l).length ≤ l.length := by
  unfold stripTrailingUS
  split
  · rw [List.length_dropLast]
    omega
  · exact le_refl _

theorem truncate64_spec (l : List Char) (hnd : noDoubleUS l = true)
    (hne : l.getLast? ≠ some '_') :
    (truncate64 l).length ≤ 64 ∧ (truncate64 l).getLast? ≠ some '_' := by
  unfold truncate64
  by_cases hlen : l.length > 64
  · rw [if_pos hlen]
    constructor
    · calc (stripTrailingUS (l.take 64)).length
          ≤ (l.take 64).length := stripTrailingUS_length_le _
        _ ≤ 64 := List.length_take_le _ _
    · exact stripTrailingUS_getLast?_ne _ (noDoubleUS_take 64 l hnd)
  · rw [if_neg hlen]
    exact ⟨by omega, hne⟩

theorem noDoubleUS_stripLeadingOneUS (l : List Char) (h : noDoubleUS l = true) :
    noDoubleUS (stripLeadingOneUS l) = true := by
  unfold stripLeadingOneUS
  split
  · exact noDoubleUS_tail _ _ h
  · exact h

theorem sanitizeChars_spec (opId : List Char) :
    (sanitizeChars opId).length ≤ 64 ∧ (sanitizeChars opId).getLast? ≠ some '_' := by
  unfold sanitizeChars
  apply truncate64_spec
  · exact noDoubleUS_stripTrailingUS _ (noDoubleUS_collapseUS _)
  · exact stripTrailingUS_getLast?_ne _ (noDoubleUS_collapseUS _)

theorem gfpClean_spec (method path : String) :
    noDoubleUS (gfpClean method path) = true ∧
      (gfpClean method path).getLast? ≠ some '_' := by
  unfold gfpClean stripEdgeUS
  constructor
  · exact noDoubleUS_stripTrailingUS _ (noDoubleUS_stripLeadingOneUS _ (noDoubleUS_collapseUS _))
  · exact stripTrailingUS_getLast?_ne _ (noDoubleUS_stripLeadingOneUS _ (noDoubleUS_collapseUS _))

/-- C5: every name produced by the namer — through the clean-identifier
sanitization, the path-based fallback, or their dispatch — is at most
64 characters long and does not end with an underscore. -/
theorem C5_name_invariant :
    (∀ opId : String, (sanitizeOperationId opId).length ≤ 64 ∧
      (sanitizeOperationId opId).data.getLast? ≠ some '_') ∧
    (∀ method path : String, (generateFromPath method path).length ≤ 64 ∧
      (generateFromPath method path).data.getLast? ≠ some '_') ∧
    (∀ method path opId : String, (generateToolName method path opId).length ≤ 64 ∧
      (generateToolName method path opId).data.getLast? ≠ some '_') := by
  have hs : ∀ opId : String, (sanitizeOperationId opId).length ≤ 64 ∧
      (sanitizeOperationId opId).data.getLast? ≠ some '_' := by
    intro opId
    exact ⟨(sanitizeChars_spec opId.data).1, (sanitizeChars_spec opId.data).2⟩
  have hg : ∀ method path : String, (generateFromPath method path).length ≤ 64 ∧
      (generateFromPath method path).data.getLast? ≠ some '_' := by
    intro m p
    have h := gfpClean_spec m p
    exact ⟨(truncate64_spec (gfpClean m p) h.1 h.2).1, (truncate64_spec (gfpClean m p) h.1 h.2).2⟩
  refine ⟨hs, hg, ?_⟩
  intro m p i
  unfold generateToolName
  by_cases hc : isCleanOperationId i = true
  · rw [if_pos hc]
    exact hs i
  · rw [if_neg hc]
    exact hg m p


theorem collapseUS_id : ∀ l : List Char, noDoubleUS l = true → collapseUS l = l
  | [], _ => rfl
  | [c], _ => rfl
  | c1 :: c2 :: rest, h => by
    unfold noDoubleUS at h
    rw [Bool.and_eq_true] at h
    have hcond : (c1 = '_' && c2 = '_') = false := by
      have h1 := h.1
      cases hb : (decide (c1 = '_') && decide (c2 = '_')) with
      | false => rfl
      | true => rw [hb] at h1; cases h1
    unfold collapseUS
    rw [if_neg (by simp [hcond])]
    rw [collapseUS_id (c2 :: rest) h.2]

theorem suffix_cons_elim (w : List Char) (c : Char) (l : List Char)
    (h : w <:+ (c :: l)) : w = c :: l ∨ w <:+ l := by
  obtain ⟨pre, hp⟩ := h
  cases pre with
  | nil => exact Or.inl (by simpa using hp)
  | cons x xs =>
    right
    rw [List.cons_append] at hp
    injection hp with _ hp
    exact ⟨xs, hp⟩

theorem suffix_of_cons (w : List Char) (c : Char) (l : List Char) (h : w <:+ l) :
    w <:+ (c :: l) := h.trans (List.suffix_cons c l)

theorem collapseUS_suffix : ∀ (l w : List Char), noDoubleUS w = true → w <:+ l →
    w <:+ collapseUS l
  | [], w, _, h => by
    rw [List.suffix_nil] at h
    rw [h]
    exact List.nil_suffix
  | [c], w, hnd, h => by
    unfold collapseUS
    exact h
  | c1 :: c2 :: rest, w, hnd, h => by
    rcases suffix_cons_elim w c1 (c2 :: rest) h with heq | hsuf
    · rw [heq] at hnd ⊢
      rw [collapseUS_id _ hnd]
    · have ih := collapseUS_suffix (c2 :: rest) w hnd hsuf
      unfold collapseUS
      by_cases hc : (c1 = '_' && c2 = '_') = true
      · rw [if_pos hc]
        exact ih
      · rw [if_neg hc]
        exact suffix_of_cons w c1 _ ih

theorem getLast?_append_right (pre w : List Char) (h : w ≠ []) :
    (pre ++ w).getLast? = w.getLast? := by
  induction pre with
  | nil => rfl
  | cons c rest ih =>
    rw [List.cons_append, getLast?_cons_ne_nil c _ (by simp [h]), ih]

theorem suffix_getLast? (w l : List Char) (h : w <:+ l) (hne : w ≠ []) :
    l.getLast? = w.getLast? := by
  obtain ⟨pre, hp⟩ := h
  rw [← hp]
  exact getLast?_append_right pre w hne

theorem stripTrailingUS_of_suffix (w l : List Char) (h : w <:+ l) (hne : w ≠ [])
    (hlast : w.getLast? ≠ some '_') : stripTrailingUS l = l := by
  unfold stripTrailingUS
  rw [if_neg]
  rw [suffix_getLast? w l h hne]
  exact hlast

theorem stripLeadingOneUS_suffix (w l : List Char) (h : w <:+ l)
    (hhead : w.head? ≠ some '_') : w <:+ stripLeadingOneUS l := by
  unfold stripLeadingOneUS
  split
  · next rest =>
    rcases suffix_cons_elim w '_' rest h with heq | hsuf
    · rw [heq] at hhead
      exact absurd rfl hhead
    · exact hsuf
  · exact h

theorem truncate64_id (l : List Char) (h : l.length ≤ 64) : truncate64 l = l := by
  unfold truncate64
  rw [if_neg (by omega)]

theorem suffix_eq_of_length_eq (w1 w2 l : List Char) (h1 : w1 <:+ l) (h2 : w2 <:+ l)
    (hlen : w1.length = w2.length) : w1 = w2 := by
  obtain ⟨p1, hp1⟩ := h1
  obtain ⟨p2, hp2⟩ := h2
  have he : p1 ++ w1 = p2 ++ w2 := by rw [hp1, hp2]
  have hl : p1.length = p2.length := by
    have e1 := congrArg List.length hp1
    have e2 := congrArg List.length hp2
    rw [List.length_append] at e1 e2
    omega
  exact List.append_inj_right he hl

theorem gfpRawName_suffix_action (method path : String) :
    gfpAction method path <:+ gfpRawName method path := by
  unfold gfpRawName
  by_cases hsuf : (('_' :: gfpAction method path).isSuffixOf
      (List.intercalate "_".data (gfpSegments path)) ||
      (gfpAction method path).isSuffixOf (List.intercalate "_".data (gfpSegments path))) = true
  · rw [if_pos hsuf]
    rcases Bool.or_eq_true_iff.mp hsuf with hl | hr
    · have := List.isSuffixOf_iff_suffix.mp hl
      exact List.IsSuffix.trans ⟨['_'], rfl⟩ this
    · exact List.isSuffixOf_iff_suffix.mp hr
  · rw [if_neg hsuf]
    exact ⟨List.intercalate "_".data (gfpSegments path) ++ ['_'], by simp⟩

/-- C9 (counterexample): on an ugly base path ending in the action word
`review` whose derived names exceed 64 characters, truncation removes
the action suffixes: the DELETE and POST operations compile to the SAME
name, and the DELETE name does not end in `_delete`. -/
theorem C9_counterexample :
    (pathParts longReviewPath.data).getLast? = some "review".data ∧
    generateFromPath "DELETE" longReviewPath = generateFromPath "POST" longReviewPath ∧
    "_delete".data.isSuffixOf (generateFromPath "DELETE" longReviewPath).data = false :=
  ⟨rfl, rfl, rfl⟩

/-- C9 (amended): for every ugly base path whose last retained segment
is the action word `review`, provided the cleaned-up names fit within
the 64-character MCP limit (so no truncation occurs), the DELETE and
POST operations compile to two distinct names: the DELETE name ends in
`review_delete` (hence in `_delete`) and the POST name ends in the bare
action word `review`. -/
theorem C9_review_delete (path : String)
    (hlast : (pathParts path.data).getLast? = some "review".data)
    (hlenD : (gfpClean "DELETE" path).length ≤ 64)
    (hlenP : (gfpClean "POST" path).length ≤ 64) :
    "review_delete".data <:+ (generateFromPath "DELETE" path).data ∧
    "review".data <:+ (generateFromPath "POST" path).data ∧
    generateFromPath "DELETE" path ≠ generateFromPath "POST" path := by
  have haD : gfpAction "DELETE" path = "review_delete".data := by
    unfold gfpAction
    rw [hlast]
    rfl
  have haP : gfpAction "POST" path = "review".data := by
    unfold gfpAction
    rw [hlast]
    rfl
  have hrawD : "review_delete".data <:+ gfpRawName "DELETE" path := by
    have := gfpRawName_suffix_action "DELETE" path
    rw [haD] at this
    exact this
  have hrawP : "review".data <:+ gfpRawName "POST" path := by
    have := gfpRawName_suffix_action "POST" path
    rw [haP] at this
    exact this
  have hcleanD : "review_delete".data <:+ gfpClean "DELETE" path := by
    unfold gfpClean stripEdgeUS
    have h1 := collapseUS_suffix (gfpRawName "DELETE" path) "review_delete".data
      (by decide) hrawD
    have h2 := stripLeadingOneUS_suffix "review_delete".data _ h1 (by decide)
    rw [stripTrailingUS_of_suffix "review_delete".data _ h2 (by decide) (by decide)]
    exact h2
  have hcleanP : "review".data <:+ gfpClean "POST" path := by
    unfold gfpClean stripEdgeUS
    have h1 := collapseUS_suffix (gfpRawName "POST" path) "review".data (by decide) hrawP
    have h2 := stripLeadingOneUS_suffix "review".data _ h1 (by decide)
    rw [stripTrailingUS_of_suffix "review".data _ h2 (by decide) (by decide)]
    exact h2
  have hD : (generateFromPath "DELETE" path).data = gfpClean "DELETE" path := by
    show (truncate64 (gfpClean "DELETE" path)) = _
    exact truncate64_id _ hlenD
  have hP : (generateFromPath "POST" path).data = gfpClean "POST" path := by
    show (truncate64 (gfpClean "POST" path)) = _
    exact truncate64_id _ hlenP
  refine ⟨hD ▸ hcleanD, hP ▸ hcleanP, ?_⟩
  intro heq
  have hdata : gfpClean "DELETE" path = gfpClean "POST" path := by
    rw [← hD, ← hP, heq]
  have hdel : "delete".data <:+ gfpClean "POST" path := by
    rw [← hdata]
    exact (show ("delete".data <:+ "review_delete".data) by decide).trans hcleanD
  have : "delete".data = "review".data :=
    suffix_eq_of_length_eq _ _ _ hdel hcleanP rfl
  cases this

theorem C9_review_delete_witness :
    "review_delete".data <:+ (generateFromPath "DELETE" "/v3/configs/review").data ∧
    "review".data <:+ (generateFromPath "POST" "/v3/configs/review").data ∧
    generateFromPath "DELETE" "/v3/configs/review" ≠ generateFromPath "POST" "/v3/configs/review" :=
  C9_review_delete "/v3/configs/review" rfl (by decide) (by decide)

end Doppler
